import Mathlib

/-!
# NanoBook limit order book — shallow embedding

A shallow embedding of the NanoBook matching engine core:
`ObjectPool` (include/LOB/ObjectPool.h), `LimitLevel`
(src/engine/LimitLevel.cpp), `OrderBook` (src/engine/OrderBook.cpp) and the
SPSC `LockFreeQueue` ring buffer (include/LOB/LockFreeQueue.h).

Modelling conventions:
* C++ `uint64_t` prices/quantities/ids become `Nat`; the engine never
  subtracts below zero on reachable states, so truncated subtraction agrees
  with the machine arithmetic there.
* The intrusive doubly-linked list of a `LimitLevel` is represented by the
  list of pool indices of its linked orders, head first; `prev`/`next`
  pointers are the positions in that list.  `append` is appending at the
  tail, `remove` erases the (unique, on reachable states) occurrence.
* The `ObjectPool` backing vector is a `List Order`; the free-index stack
  `freeIndices_` is a `List Nat` whose *last* element is the stack top,
  matching `std::vector::back`/`pop_back`/`push_back`.
* `std::map` side books become association lists sorted by key: descending
  for bids (`std::greater`), ascending for asks (`std::less`);
  `begin()` is the list head.  The unordered `orderMap_` is a plain
  association list with most-recent insertion first.
* Trades printed by `OrderBook::match` are collected in a `List Trade`.
  The `cancelOrder` error print for an unknown id is the `false` flag of
  the returned pair.
* The unbounded `while` loop of `OrderBook::match` runs on fuel; theorem
  `matchLoop_fixpoint` below shows the fuel supplied by `matchOrders`
  always reaches the loop's own exit condition, so the fueled function
  computes exactly what the C++ loop computes.
-/

namespace NanoBook

/-- Side of the book (`enum class Side : uint8_t { Buy, Sell }` in Order.h). -/
inductive Side where
  | Buy : Side
  | Sell : Side
deriving DecidableEq, Repr

/-- Order record (`struct Order` in Order.h).  The intrusive `prev`/`next`
pointers are not stored: linkage is the position of the order's pool index
inside its level's queue list. -/
structure Order where
  id : Nat
  price : Nat
  quantity : Nat
  side : Side
deriving DecidableEq, Repr

instance : Inhabited Order := ⟨⟨0, 0, 0, Side.Buy⟩⟩

/-- A trade execution, as printed by `OrderBook::match`
(`quantity` shares at `price`, bid order `bidId` vs ask order `askId`). -/
structure Trade where
  quantity : Nat
  price : Nat
  bidId : Nat
  askId : Nat
deriving DecidableEq, Repr

/-- Fixed-capacity slab allocator (`ObjectPool<Order>` in ObjectPool.h).
`pool` is the backing vector, `freeIndices` the stack of free slot indices
with the top at the *end* of the list (`std::vector::back`). -/
structure ObjectPool where
  pool : List Order
  freeIndices : List Nat
deriving DecidableEq, Repr

namespace ObjectPool

/-- `ObjectPool(size)`: backing vector of `size` default slots, free stack
`{0, 1, …, size−1}` pushed in order (so the top is `size−1`). -/
def create (size : Nat) : ObjectPool :=
  { pool := List.replicate size default, freeIndices := List.range size }

/-- `allocate(args…)`: pop the top (back) free index, overwrite that slot
with the freshly constructed order, return the index; `none` when the free
stack is empty (pool exhausted). -/
def allocate (P : ObjectPool) (ord : Order) : Option (Nat × ObjectPool) :=
  match P.freeIndices.getLast? with
  | none => none
  | some idx =>
      some (idx, { pool := P.pool.set idx ord, freeIndices := P.freeIndices.dropLast })

/-- `deallocate(obj)`: push the slot index back onto the free stack. -/
def deallocate (P : ObjectPool) (idx : Nat) : ObjectPool :=
  { P with freeIndices := P.freeIndices ++ [idx] }

end ObjectPool

/-- Price level (`class LimitLevel` in LimitLevel.h): price, cached
aggregate volume `totalVolume_`, and the FIFO queue of linked orders
represented by their pool indices, head (earliest) first. -/
structure LimitLevel where
  price : Nat
  totalVolume : Nat
  queue : List Nat
deriving DecidableEq, Repr

namespace LimitLevel

/-- `LimitLevel(p)`: empty queue, volume 0. -/
def create (p : Nat) : LimitLevel := ⟨p, 0, []⟩

/-- `LimitLevel::append(order)`: link at the tail and add the order's
current remaining quantity (read from the pool slot) to the cached volume. -/
def append (pool : List Order) (L : LimitLevel) (idx : Nat) : LimitLevel :=
  { L with queue := L.queue ++ [idx],
           totalVolume := L.totalVolume + (pool.getD idx default).quantity }

/-- `LimitLevel::remove(order)`: unlink the record and subtract its
*current* remaining quantity (read from the pool slot at the moment of
unlink) from the cached volume. -/
def remove (pool : List Order) (L : LimitLevel) (idx : Nat) : LimitLevel :=
  { L with queue := L.queue.erase idx,
           totalVolume := L.totalVolume - (pool.getD idx default).quantity }

/-- `LimitLevel::isEmpty()`: no linked orders. -/
def isEmpty (L : LimitLevel) : Bool := L.queue.isEmpty

/-- `LimitLevel::getHead()`: the earliest linked order (as a pool index),
`none` for the null pointer on an empty queue. -/
def getHead (L : LimitLevel) : Option Nat := L.queue.head?

end LimitLevel

/-- A side book: association list from price to level.  Bids are kept
sorted strictly descending, asks strictly ascending, so the list head is
`std::map::begin()`, the best level. -/
abbrev SideBook := List (Nat × LimitLevel)

/-- Membership of a price in a side book (`map::find != end`). -/
def SideBook.findLevel (m : SideBook) (p : Nat) : Option LimitLevel :=
  (m.find? (fun e => e.fst = p)).map (·.snd)

/-- Insert a fresh empty level at `p` keeping the list sorted descending
(bid book, comparator `std::greater<Price>`); no change if `p` is present. -/
def SideBook.insertBid (m : SideBook) (p : Nat) : SideBook :=
  match m with
  | [] => [(p, LimitLevel.create p)]
  | (q, L) :: rest =>
      if q < p then (p, LimitLevel.create p) :: (q, L) :: rest
      else if p = q then (q, L) :: rest
      else (q, L) :: SideBook.insertBid rest p

/-- Insert a fresh empty level at `p` keeping the list sorted ascending
(ask book, comparator `std::less<Price>`); no change if `p` is present. -/
def SideBook.insertAsk (m : SideBook) (p : Nat) : SideBook :=
  match m with
  | [] => [(p, LimitLevel.create p)]
  | (q, L) :: rest =>
      if p < q then (p, LimitLevel.create p) :: (q, L) :: rest
      else if p = q then (q, L) :: rest
      else (q, L) :: SideBook.insertAsk rest p

/-- Apply `f` to the level stored at price `p` (models mutation through the
`LimitLevel*` returned by `getLimitLevel`). -/
def SideBook.updateAt (m : SideBook) (p : Nat) (f : LimitLevel → LimitLevel) : SideBook :=
  m.map (fun e => if e.fst = p then (e.fst, f e.snd) else e)

/-- `map::erase(key)`: drop the entry at price `p`. -/
def SideBook.eraseKey (m : SideBook) (p : Nat) : SideBook :=
  m.eraseP (fun e => e.fst = p)

/-- The identifier index `orderMap_` (`std::unordered_map<OrderId, Order*>`),
an association list from order id to pool index. -/
abbrev OrderMap := List (Nat × Nat)

/-- `orderMap_.find(id)`. -/
def OrderMap.lookup (m : OrderMap) (id : Nat) : Option Nat :=
  (m.find? (fun e => e.fst = id)).map (·.snd)

/-- `orderMap_[id] = order` for a fresh id (`addOrder` only stores after its
duplicate check, so plain cons is the map insertion). -/
def OrderMap.insert (m : OrderMap) (id idx : Nat) : OrderMap := (id, idx) :: m

/-- `orderMap_.erase(id)`. -/
def OrderMap.erase (m : OrderMap) (id : Nat) : OrderMap :=
  m.eraseP (fun e => e.fst = id)

/-- The matching engine state (`class OrderBook` in OrderBook.h). -/
structure OrderBook where
  bids : SideBook
  asks : SideBook
  orderMap : OrderMap
  orderPool : ObjectPool
deriving DecidableEq, Repr

namespace OrderBook

/-- `OrderBook()` — the constructor initializes the pool with 10000 slots. -/
def empty : OrderBook := ⟨[], [], [], ObjectPool.create 10000⟩

/-- All pool indices linked anywhere in either side book, bids first, in
book and queue order. -/
def allQueues (b : OrderBook) : List Nat :=
  (b.bids.map (fun e => e.snd.queue)).flatten ++ (b.asks.map (fun e => e.snd.queue)).flatten

/-- Number of linked orders; the fuel bound for the matching loop. -/
def totalOrders (b : OrderBook) : Nat := (allQueues b).length

/-- The cleanup block of `OrderBook::match` for a fully filled bid head:
`if (bidOrder->quantity == 0) { remove; erase from index; deallocate;
if level empty erase level }`. -/
def cleanupBid (b : OrderBook) (idx : Nat) : OrderBook :=
  if (b.orderPool.pool.getD idx default).quantity = 0 then
    match b.bids with
    | [] => b
    | (p, L) :: rest =>
        let L' := LimitLevel.remove b.orderPool.pool L idx
        let b' := { b with
          orderMap := OrderMap.erase b.orderMap (b.orderPool.pool.getD idx default).id,
          orderPool := ObjectPool.deallocate b.orderPool idx }
        if L'.isEmpty then { b' with bids := rest }
        else { b' with bids := (p, L') :: rest }
  else b

/-- Symmetric cleanup for a fully filled ask head. -/
def cleanupAsk (b : OrderBook) (idx : Nat) : OrderBook :=
  if (b.orderPool.pool.getD idx default).quantity = 0 then
    match b.asks with
    | [] => b
    | (p, L) :: rest =>
        let L' := LimitLevel.remove b.orderPool.pool L idx
        let b' := { b with
          orderMap := OrderMap.erase b.orderMap (b.orderPool.pool.getD idx default).id,
          orderPool := ObjectPool.deallocate b.orderPool idx }
        if L'.isEmpty then { b' with asks := rest }
        else { b' with asks := (p, L') :: rest }
  else b

/-- One iteration of the `while` loop in `OrderBook::match`: `none` when the
loop breaks (an empty side, spread not crossed, or — unreachable on states
the engine builds — a null head), otherwise the mutated book and the emitted
trade.  The two quantity decrements are performed sequentially through the
pool, exactly as the C++ writes through `bidOrder`/`askOrder`. -/
def matchStep (b : OrderBook) : Option (OrderBook × Trade) :=
  match b.bids, b.asks with
  | (_, bL) :: _, (_, aL) :: _ =>
      if bL.price < aL.price then none
      else
        match bL.getHead, aL.getHead with
        | some bidIdx, some askIdx =>
            let pool0 := b.orderPool.pool
            let bidOrder := pool0.getD bidIdx default
            let askOrder := pool0.getD askIdx default
            let fill := min bidOrder.quantity askOrder.quantity
            let t : Trade := ⟨fill, aL.price, bidOrder.id, askOrder.id⟩
            let pool1 := pool0.set bidIdx { bidOrder with quantity := bidOrder.quantity - fill }
            let ask1 := pool1.getD askIdx default
            let pool2 := pool1.set askIdx { ask1 with quantity := ask1.quantity - fill }
            let b1 := cleanupBid { b with orderPool := { b.orderPool with pool := pool2 } } bidIdx
            some (cleanupAsk b1 askIdx, t)
        | _, _ => none
  | _, _ => none

/-- The `while (true)` loop of `OrderBook::match`, on fuel, accumulating
emitted trades in order. -/
def matchLoop : Nat → OrderBook → List Trade → OrderBook × List Trade
  | 0, b, acc => (b, acc)
  | fuel + 1, b, acc =>
      match matchStep b with
      | none => (b, acc)
      | some (b', t) => matchLoop fuel b' (acc ++ [t])

/-- `OrderBook::match()`: run the loop with enough fuel to reach its own
exit condition (`matchLoop_fixpoint` proves the bound suffices). -/
def matchOrders (b : OrderBook) : OrderBook × List Trade :=
  matchLoop (totalOrders b) b []

/-- `OrderBook::addOrder(id, price, qty, side)`: duplicate-id guard, pool
acquire (silent drop on exhaustion), index insert, level lookup-or-create,
tail append, then the cross loop.  Returns the new book and the trades. -/
def addOrder (b : OrderBook) (id price qty : Nat) (side : Side) : OrderBook × List Trade :=
  if (OrderMap.lookup b.orderMap id).isSome then (b, [])
  else
    match b.orderPool.allocate ⟨id, price, qty, side⟩ with
    | none => (b, [])
    | some (idx, pool') =>
        let b1 := { b with orderPool := pool', orderMap := OrderMap.insert b.orderMap id idx }
        let app := fun L => LimitLevel.append b1.orderPool.pool L idx
        let b2 :=
          match side with
          | Side.Buy => { b1 with bids := (SideBook.insertBid b1.bids price).updateAt price app }
          | Side.Sell => { b1 with asks := (SideBook.insertAsk b1.asks price).updateAt price app }
        matchOrders b2

/-- `OrderBook::cancelOrder(id)`: unknown id reports failure (`false`) and
leaves the book untouched; otherwise unlink from the owning level, erase
the index entry, release the slot, and drop the level if now empty.
`getLimitLevel`'s lazy creation is mirrored by the insert-then-update. -/
def cancelOrder (b : OrderBook) (id : Nat) : OrderBook × Bool :=
  match OrderMap.lookup b.orderMap id with
  | none => (b, false)
  | some idx =>
      let ord := b.orderPool.pool.getD idx default
      match ord.side with
      | Side.Buy =>
          let rem := fun L => LimitLevel.remove b.orderPool.pool L idx
          let m1 := (SideBook.insertBid b.bids ord.price).updateAt ord.price rem
          let b' := { b with bids := m1,
                             orderMap := OrderMap.erase b.orderMap id,
                             orderPool := ObjectPool.deallocate b.orderPool idx }
          match SideBook.findLevel m1 ord.price with
          | some L' =>
              if L'.isEmpty then ({ b' with bids := SideBook.eraseKey m1 ord.price }, true)
              else (b', true)
          | none => (b', true)
      | Side.Sell =>
          let rem := fun L => LimitLevel.remove b.orderPool.pool L idx
          let m1 := (SideBook.insertAsk b.asks ord.price).updateAt ord.price rem
          let b' := { b with asks := m1,
                             orderMap := OrderMap.erase b.orderMap id,
                             orderPool := ObjectPool.deallocate b.orderPool idx }
          match SideBook.findLevel m1 ord.price with
          | some L' =>
              if L'.isEmpty then ({ b' with asks := SideBook.eraseKey m1 ord.price }, true)
              else (b', true)
          | none => (b', true)

end OrderBook

/-- The book opposite the submitted side — the side `OrderBook::match`
consumes against. -/
def oppositeBook (b : OrderBook) : Side → SideBook
  | Side.Buy => b.asks
  | Side.Sell => b.bids

/-- The book of the submitted side itself. -/
def ownBook (b : OrderBook) : Side → SideBook
  | Side.Buy => b.bids
  | Side.Sell => b.asks

/-- Representation invariant of the engine state, as maintained by the
C++ code's construction (sorted maps, key = level price, no empty level,
linked slots valid and priced at their level, each slot linked at most
once, free stack duplicate-free, valid, and disjoint from the books). -/
def WFcore (b : OrderBook) : Prop :=
  b.bids.Pairwise (fun x y => y.fst < x.fst) ∧
  b.asks.Pairwise (fun x y => x.fst < y.fst) ∧
  (∀ e ∈ b.bids, e.snd.price = e.fst ∧ e.snd.queue ≠ [] ∧
      ∀ i ∈ e.snd.queue, i < b.orderPool.pool.length ∧
        (b.orderPool.pool.getD i default).price = e.fst) ∧
  (∀ e ∈ b.asks, e.snd.price = e.fst ∧ e.snd.queue ≠ [] ∧
      ∀ i ∈ e.snd.queue, i < b.orderPool.pool.length ∧
        (b.orderPool.pool.getD i default).price = e.fst) ∧
  (OrderBook.allQueues b).Nodup ∧
  b.orderPool.freeIndices.Nodup ∧
  (∀ i ∈ b.orderPool.freeIndices, i < b.orderPool.pool.length ∧
      i ∉ OrderBook.allQueues b)

/-- The spread is not inverted: best bid strictly below best ask whenever
both sides are non-empty. -/
def uncrossed (b : OrderBook) : Prop :=
  ∀ e₁ ∈ b.bids.head?, ∀ e₂ ∈ b.asks.head?, e₁.fst < e₂.fst

/-- Full well-formedness: representation invariant plus uncrossed spread. -/
def WF (b : OrderBook) : Prop := WFcore b ∧ uncrossed b

/-- Stated from the spec's words (§8, universal invariant 6): every level
present in either side book has cached aggregate volume equal to the sum of
the remaining quantities of the orders currently linked into it.  This is
the property the claim asserts of the code's cached `totalVolume_`. -/
def specVolumeInvariant (b : OrderBook) : Prop :=
  ∀ e ∈ b.bids ++ b.asks,
    e.snd.totalVolume =
      (e.snd.queue.map (fun i => (b.orderPool.pool.getD i default).quantity)).sum

/-- SPSC ring buffer (`LockFreeQueue<T>` in LockFreeQueue.h).  The two
atomic indices become plain fields: every claim about the buffer concerns
single-threaded call sequences, where the acquire/release orderings are
no-ops. -/
structure LockFreeQueue (T : Type) where
  buffer : List T
  head : Nat
  tail : Nat
  capacity : Nat
deriving DecidableEq, Repr

namespace LockFreeQueue

/-- `LockFreeQueue(size)`: backing buffer of `size + 1` default slots (one
sentinel slot), `capacity_ = size + 1`, both indices 0. -/
def create (T : Type) [Inhabited T] (size : Nat) : LockFreeQueue T :=
  ⟨List.replicate (size + 1) default, 0, 0, size + 1⟩

/-- `push(item)`: fail iff advancing the tail would meet the head;
otherwise write the slot at the old tail and advance it modulo capacity. -/
def push (q : LockFreeQueue T) (item : T) : LockFreeQueue T × Bool :=
  let currentTail := q.tail
  let nextTail := (currentTail + 1) % q.capacity
  if nextTail = q.head then (q, false)
  else ({ q with buffer := q.buffer.set currentTail item, tail := nextTail }, true)

/-- `pop(item)`: fail iff head meets tail; otherwise read the slot at the
head and advance it modulo capacity.  The out-parameter is the `Option`. -/
def pop [Inhabited T] (q : LockFreeQueue T) : LockFreeQueue T × Option T :=
  let currentHead := q.head
  if currentHead = q.tail then (q, none)
  else ({ q with head := (currentHead + 1) % q.capacity },
        some (q.buffer.getD currentHead default))

/-- Number of unconsumed items held by the buffer. -/
def count (q : LockFreeQueue T) : Nat :=
  (q.capacity + q.tail - q.head) % q.capacity

/-- The unconsumed items in FIFO order, oldest first. -/
def toList [Inhabited T] (q : LockFreeQueue T) : List T :=
  (List.range (count q)).map (fun i => q.buffer.getD ((q.head + i) % q.capacity) default)

end LockFreeQueue

/-- A single-threaded ring-buffer call. -/
inductive RBOp (T : Type) where
  | push (x : T)
  | pop

/-- Final state of a call sequence together with the successfully pushed
and successfully popped items, each in call order. -/
structure RunResult (T : Type) where
  state : LockFreeQueue T
  pushed : List T
  popped : List T
deriving DecidableEq

/-- Run a single-threaded sequence of `push`/`pop` calls, recording the
items of the successful ones in order. -/
def runOps [Inhabited T] : List (RBOp T) → LockFreeQueue T → RunResult T
  | [], q => ⟨q, [], []⟩
  | RBOp.push x :: rest, q =>
      let r := LockFreeQueue.push q x
      let res := runOps rest r.fst
      if r.snd then ⟨res.state, x :: res.pushed, res.popped⟩
      else ⟨res.state, res.pushed, res.popped⟩
  | RBOp.pop :: rest, q =>
      let r := LockFreeQueue.pop q
      let res := runOps rest r.fst
      match r.snd with
      | some x => ⟨res.state, res.pushed, x :: res.popped⟩
      | none => ⟨res.state, res.pushed, res.popped⟩

end NanoBook

namespace NanoBook

/-- The pool after one cross-loop iteration's two in-place decrements
(`bidOrder->quantity -= quantity; askOrder->quantity -= quantity;`),
written as the two sequential writes of `OrderBook::match`. -/
def fillPool (pool : List Order) (bidIdx askIdx fill : Nat) : List Order :=
  let bidOrder := pool.getD bidIdx default
  let pool1 := pool.set bidIdx { bidOrder with quantity := bidOrder.quantity - fill }
  let ask1 := pool1.getD askIdx default
  pool1.set askIdx { ask1 with quantity := ask1.quantity - fill }

end NanoBook

namespace NanoBook

/-- Representation invariant of a ring buffer built by `create N`: the
capacity field and backing buffer reflect the `N + 1` reserved slots and
both indices are reduced modulo the capacity. -/
def RBInv (N : Nat) {T : Type} (q : LockFreeQueue T) : Prop :=
  q.capacity = N + 1 ∧ q.buffer.length = N + 1 ∧ q.head < N + 1 ∧ q.tail < N + 1

end NanoBook

namespace NanoBook

/-! ## Basic helper lemmas -/

theorem getD_set_self {α : Type} (l : List α) {i : Nat} (a d : α) (h : i < l.length) :
    (l.set i a).getD i d = a := by
  simp [List.getD, List.getElem?_set_self, h]

theorem getD_set_ne {α : Type} (l : List α) {i j : Nat} (a d : α) (h : i ≠ j) :
    (l.set i a).getD j d = l.getD j d := by
  simp [List.getD, List.getElem?_set_ne h]

theorem range_getLast (n : Nat) : (List.range (n + 1)).getLast? = some n := by
  rw [List.range_succ, List.getLast?_concat]

theorem range_dropLast (n : Nat) : (List.range (n + 1)).dropLast = List.range n := by
  rw [List.range_succ, List.dropLast_concat]

end NanoBook

namespace NanoBook

/-! ## Identifier-index lemmas -/

theorem lookup_eq_none_of_not_mem (m : OrderMap) (id : Nat)
    (h : id ∉ m.map Prod.fst) : OrderMap.lookup m id = none := by
  unfold OrderMap.lookup
  rw [List.find?_eq_none.mpr]
  · rfl
  · intro e he
    simp only [decide_eq_true_eq]
    intro hfst
    exact h (List.mem_map.mpr ⟨e, he, hfst⟩)

theorem lookup_erase_self (m : OrderMap) (id : Nat)
    (h : (m.map Prod.fst).Nodup) :
    OrderMap.lookup (OrderMap.erase m id) id = none := by
  induction m with
  | nil => rfl
  | cons e rest ih =>
      simp only [List.map_cons, List.nodup_cons] at h
      by_cases he : e.fst = id
      · have : OrderMap.erase (e :: rest) id = rest := by
          simp [OrderMap.erase, List.eraseP_cons, he]
        rw [this]
        exact lookup_eq_none_of_not_mem rest id (he ▸ h.1)
      · have : OrderMap.erase (e :: rest) id = e :: OrderMap.erase rest id := by
          simp [OrderMap.erase, List.eraseP_cons, he]
        rw [this]
        unfold OrderMap.lookup
        rw [List.find?_cons_of_neg]
        · exact ih h.2
        · simp [he]

/-- In every found-id branch of `cancelOrder`, the identifier index of the
resulting book is the original one with the entry erased. -/
theorem cancelOrder_orderMap_of_found (b : OrderBook) (id idx : Nat)
    (h : OrderMap.lookup b.orderMap id = some idx) :
    ((OrderBook.cancelOrder b id).fst).orderMap = OrderMap.erase b.orderMap id := by
  unfold OrderBook.cancelOrder
  rw [h]
  dsimp only
  split <;> (split <;> first | rfl | (split <;> rfl))

/-- `cancelOrder` on an id absent from the index reports failure and
returns the book unchanged. -/
theorem cancelOrder_unknown (b : OrderBook) (id : Nat)
    (h : OrderMap.lookup b.orderMap id = none) :
    OrderBook.cancelOrder b id = (b, false) := by
  unfold OrderBook.cancelOrder
  rw [h]

end NanoBook

namespace NanoBook

/-! ## Claims C4, C5, C6 -/

/-- C4: for every book state and every identifier already present in the
identifier index, `submit` is a silent no-op — it emits no trade, consumes
no pool slot, and leaves the index, both side books, and the pool exactly
unchanged; hence a further `submit` with the same identifier again yields
the same book as before. -/
theorem submit_duplicate_id_noop (b : OrderBook) (id p q p' q' j : Nat)
    (s s' : Side) (h : OrderMap.lookup b.orderMap id = some j) :
    OrderBook.addOrder b id p q s = (b, []) ∧
    OrderBook.addOrder (OrderBook.addOrder b id p q s).fst id p' q' s' =
      ((OrderBook.addOrder b id p q s).fst, []) := by
  have h1 : ∀ p₀ q₀ s₀, OrderBook.addOrder b id p₀ q₀ s₀ = (b, []) := by
    intro p₀ q₀ s₀
    unfold OrderBook.addOrder
    simp [h]
  exact ⟨h1 p q s, by rw [h1 p q s]; exact h1 p' q' s'⟩

theorem submit_duplicate_id_noop_witness :
    OrderMap.lookup ([(5, 0)] : OrderMap) 5 = some 0 ∧
    (OrderBook.addOrder ⟨[], [], [(5, 0)], ⟨[], []⟩⟩ 5 100 10 Side.Buy =
        (⟨[], [], [(5, 0)], ⟨[], []⟩⟩, []) ∧
      OrderBook.addOrder
          (OrderBook.addOrder ⟨[], [], [(5, 0)], ⟨[], []⟩⟩ 5 100 10 Side.Buy).fst
          5 999 999 Side.Sell =
        ((OrderBook.addOrder ⟨[], [], [(5, 0)], ⟨[], []⟩⟩ 5 100 10 Side.Buy).fst, [])) :=
  ⟨by decide,
   submit_duplicate_id_noop ⟨[], [], [(5, 0)], ⟨[], []⟩⟩ 5 100 10 999 999 0
     Side.Buy Side.Sell (by decide)⟩

/-- C5: when the pool's free-index stack is empty and the submitted
identifier is fresh, `submit` is dropped with no partial state: no trade,
no index entry, no level creation or modification, pool unchanged. -/
theorem submit_pool_exhausted_noop (b : OrderBook) (id p q : Nat) (s : Side)
    (hid : OrderMap.lookup b.orderMap id = none)
    (hfree : b.orderPool.freeIndices = []) :
    OrderBook.addOrder b id p q s = (b, []) := by
  unfold OrderBook.addOrder
  simp [hid, ObjectPool.allocate, hfree]

theorem submit_pool_exhausted_noop_witness :
    (OrderMap.lookup ([] : OrderMap) 1 = none ∧
      (⟨[], [], [], ⟨[default], []⟩⟩ : OrderBook).orderPool.freeIndices = []) ∧
    OrderBook.addOrder ⟨[], [], [], ⟨[default], []⟩⟩ 1 100 10 Side.Buy =
      (⟨[], [], [], ⟨[default], []⟩⟩, []) :=
  ⟨⟨by decide, by decide⟩,
   submit_pool_exhausted_noop ⟨[], [], [], ⟨[default], []⟩⟩ 1 100 10 Side.Buy
     (by decide) (by decide)⟩

/-- C6: `cancel` of an identifier not present in the index reports the
unknown-identifier error (the `false` flag) and changes no engine state;
consequently after `cancel(id); cancel(id)` the second call reports the
error and the book after the second call equals the book after the first. -/
theorem cancel_unknown_id_and_idempotent (b : OrderBook) (id : Nat)
    (hN : (b.orderMap.map Prod.fst).Nodup) :
    (OrderMap.lookup b.orderMap id = none → OrderBook.cancelOrder b id = (b, false)) ∧
    OrderBook.cancelOrder (OrderBook.cancelOrder b id).fst id =
      ((OrderBook.cancelOrder b id).fst, false) := by
  refine ⟨fun h => cancelOrder_unknown b id h, ?_⟩
  cases hcase : OrderMap.lookup b.orderMap id with
  | none => rw [cancelOrder_unknown b id hcase]; exact cancelOrder_unknown b id hcase
  | some idx =>
      apply cancelOrder_unknown
      rw [cancelOrder_orderMap_of_found b id idx hcase]
      exact lookup_erase_self b.orderMap id hN

theorem cancel_unknown_id_and_idempotent_witness :
    ((([(7, 0)] : OrderMap).map Prod.fst).Nodup) ∧
    ((OrderMap.lookup ([(7, 0)] : OrderMap) 3 = none →
        OrderBook.cancelOrder ⟨[], [(100, ⟨100, 10, [0]⟩)], [(7, 0)],
          ⟨[⟨7, 100, 10, Side.Sell⟩], []⟩⟩ 3 =
          (⟨[], [(100, ⟨100, 10, [0]⟩)], [(7, 0)], ⟨[⟨7, 100, 10, Side.Sell⟩], []⟩⟩, false)) ∧
      OrderBook.cancelOrder
          (OrderBook.cancelOrder ⟨[], [(100, ⟨100, 10, [0]⟩)], [(7, 0)],
            ⟨[⟨7, 100, 10, Side.Sell⟩], []⟩⟩ 3).fst 3 =
        ((OrderBook.cancelOrder ⟨[], [(100, ⟨100, 10, [0]⟩)], [(7, 0)],
            ⟨[⟨7, 100, 10, Side.Sell⟩], []⟩⟩ 3).fst, false)) :=
  ⟨by decide,
   cancel_unknown_id_and_idempotent
     ⟨[], [(100, ⟨100, 10, [0]⟩)], [(7, 0)], ⟨[⟨7, 100, 10, Side.Sell⟩], []⟩⟩ 3 (by decide)⟩

end NanoBook

namespace NanoBook

theorem s1_first :
    OrderBook.addOrder OrderBook.empty 1 105 100 Side.Sell =
      (⟨[], [(105, ⟨105, 100, [9999]⟩)], [(1, 9999)],
        ⟨(List.replicate 10000 (default : Order)).set 9999 ⟨1, 105, 100, Side.Sell⟩,
         List.range 9999⟩⟩, []) := by
  have e2 : OrderBook.empty.orderPool.allocate ⟨1, 105, 100, Side.Sell⟩ =
      some (9999, ⟨(List.replicate 10000 (default : Order)).set 9999 ⟨1, 105, 100, Side.Sell⟩,
        List.range 9999⟩) := by
    show ObjectPool.allocate ⟨List.replicate 10000 default, List.range 10000⟩ _ = _
    unfold ObjectPool.allocate
    rw [show (10000 : Nat) = 9999 + 1 by norm_num, range_getLast, range_dropLast]
  unfold OrderBook.addOrder
  simp only [show OrderMap.lookup OrderBook.empty.orderMap 1 = none from rfl,
             Option.isSome_none, Bool.false_eq_true, if_false, e2]
  have e3 : ((List.replicate 10000 (default : Order)).set 9999
      ⟨1, 105, 100, Side.Sell⟩).getD 9999 default = ⟨1, 105, 100, Side.Sell⟩ :=
    getD_set_self _ _ _ (by rw [List.length_replicate]; norm_num)
  rw [show OrderBook.empty.bids = [] from rfl, show OrderBook.empty.asks = [] from rfl,
      show OrderBook.empty.orderMap.insert 1 9999 = [(1, 9999)] from rfl]
  rw [show SideBook.insertAsk [] 105 = [(105, LimitLevel.create 105)] from rfl]
  simp only [SideBook.updateAt, List.map_cons, List.map_nil, LimitLevel.append,
             LimitLevel.create, e3, if_pos]
  simp only [Nat.zero_add, List.nil_append]
  generalize (List.replicate 10000 (default : Order)).set 9999
      (⟨1, 105, 100, Side.Sell⟩ : Order) = P
  rfl

end NanoBook

namespace NanoBook

/-! ## Driving the matching loop on concrete states -/

theorem allocate_concat (pool : List Order) (f : List Nat) (idx : Nat) (ord : Order) :
    ObjectPool.allocate ⟨pool, f ++ [idx]⟩ ord = some (idx, ⟨pool.set idx ord, f⟩) := by
  unfold ObjectPool.allocate
  rw [List.getLast?_concat, List.dropLast_concat]

theorem matchLoop_done (f : Nat) (b : OrderBook) (acc : List Trade)
    (h : OrderBook.matchStep b = none) : OrderBook.matchLoop f b acc = (b, acc) := by
  cases f <;> simp [OrderBook.matchLoop, h]

theorem matchOrders_none (b : OrderBook) (h : OrderBook.matchStep b = none) :
    OrderBook.matchOrders b = (b, []) :=
  matchLoop_done _ _ _ h

theorem matchOrders_one (b b1 : OrderBook) (t : Trade)
    (h0 : 1 ≤ OrderBook.totalOrders b)
    (h1 : OrderBook.matchStep b = some (b1, t))
    (h2 : OrderBook.matchStep b1 = none) :
    OrderBook.matchOrders b = (b1, [t]) := by
  obtain ⟨f, hf⟩ : ∃ f, OrderBook.totalOrders b = f + 1 :=
    ⟨OrderBook.totalOrders b - 1, by omega⟩
  rw [OrderBook.matchOrders, hf, OrderBook.matchLoop, h1]
  dsimp only
  rw [matchLoop_done _ _ _ h2, List.nil_append]

theorem matchOrders_two (b b1 b2 : OrderBook) (t1 t2 : Trade)
    (h0 : 2 ≤ OrderBook.totalOrders b)
    (h1 : OrderBook.matchStep b = some (b1, t1))
    (h2 : OrderBook.matchStep b1 = some (b2, t2))
    (h3 : OrderBook.matchStep b2 = none) :
    OrderBook.matchOrders b = (b2, [t1, t2]) := by
  obtain ⟨f, hf⟩ : ∃ f, OrderBook.totalOrders b = f + 2 :=
    ⟨OrderBook.totalOrders b - 2, by omega⟩
  rw [OrderBook.matchOrders, hf, OrderBook.matchLoop, h1]
  dsimp only
  rw [OrderBook.matchLoop, h2]
  dsimp only
  rw [matchLoop_done _ _ _ h3]
  rfl

end NanoBook

namespace NanoBook

theorem matchStep_s1 (P : List Order) (hlen : P.length = 10000)
    (g1 : P.getD 9998 default = ⟨2, 105, 50, Side.Buy⟩)
    (g2 : P.getD 9999 default = ⟨1, 105, 100, Side.Sell⟩) :
    OrderBook.matchStep ⟨[(105, ⟨105, 50, [9998]⟩)], [(105, ⟨105, 100, [9999]⟩)],
        [(2, 9998), (1, 9999)], ⟨P, List.range 9998⟩⟩ =
      some (⟨[], [(105, ⟨105, 100, [9999]⟩)], [(1, 9999)],
        ⟨(P.set 9998 ⟨2, 105, 0, Side.Buy⟩).set 9999 ⟨1, 105, 50, Side.Sell⟩,
         List.range 9998 ++ [9998]⟩⟩, ⟨50, 105, 2, 1⟩) := by
  unfold OrderBook.matchStep
  dsimp only
  rw [if_neg (by norm_num)]
  dsimp only [LimitLevel.getHead, List.head?]
  rw [g1, g2]
  dsimp only
  rw [show (50 : Nat) ⊓ 100 = 50 from rfl, show (50 : Nat) - 50 = 0 from rfl]
  have e1 : (P.set 9998 ({ id := 2, price := 105, quantity := 0, side := Side.Buy } : Order)).getD
      9999 default = ⟨1, 105, 100, Side.Sell⟩ := by
    rw [getD_set_ne _ _ _ (by norm_num), g2]
  rw [e1]
  dsimp only
  rw [show (100 : Nat) - 50 = 50 from rfl]
  have e2 : ((P.set 9998 ({ id := 2, price := 105, quantity := 0, side := Side.Buy } : Order)).set
      9999 ({ id := 1, price := 105, quantity := 50, side := Side.Sell } : Order)).getD 9998 default =
      ⟨2, 105, 0, Side.Buy⟩ := by
    rw [getD_set_ne _ _ _ (by norm_num)]
    exact getD_set_self _ _ _ (by omega)
  have e3 : ((P.set 9998 ({ id := 2, price := 105, quantity := 0, side := Side.Buy } : Order)).set
      9999 ({ id := 1, price := 105, quantity := 50, side := Side.Sell } : Order)).getD 9999 default =
      ⟨1, 105, 50, Side.Sell⟩ :=
    getD_set_self _ _ _ (by simp only [List.length_set]; omega)
  unfold OrderBook.cleanupBid
  dsimp only
  rw [e2]
  rw [if_pos (show ({ id := 2, price := 105, quantity := 0, side := Side.Buy } : Order).quantity
      = 0 from rfl)]
  dsimp only
  unfold LimitLevel.remove
  rw [e2]
  dsimp only
  rw [show (([9998] : List Nat).erase 9998) = [] from rfl,
      show (50 : Nat) - 0 = 50 from rfl,
      show OrderMap.erase [(2, 9998), (1, 9999)] 2 = [(1, 9999)] from rfl]
  unfold ObjectPool.deallocate
  dsimp only
  rw [if_pos (show LimitLevel.isEmpty ⟨105, 50, []⟩ = true from rfl)]
  unfold OrderBook.cleanupAsk
  dsimp only
  rw [e3]
  rw [if_neg (show ¬(({ id := 1, price := 105, quantity := 50, side := Side.Sell } : Order).quantity
      = 0) from by norm_num)]

end NanoBook

namespace NanoBook

theorem s1_run :
    OrderBook.addOrder (OrderBook.addOrder OrderBook.empty 1 105 100 Side.Sell).fst
        2 105 50 Side.Buy =
      (⟨[], [(105, ⟨105, 100, [9999]⟩)], [(1, 9999)],
        ⟨((((List.replicate 10000 (default : Order)).set 9999 ⟨1, 105, 100, Side.Sell⟩).set 9998
              ⟨2, 105, 50, Side.Buy⟩).set 9998 ⟨2, 105, 0, Side.Buy⟩).set 9999
            ⟨1, 105, 50, Side.Sell⟩,
         List.range 9998 ++ [9998]⟩⟩, [⟨50, 105, 2, 1⟩]) := by
  rw [s1_first]
  dsimp only
  have h9999 : List.range 9999 = List.range 9998 ++ [9998] := by
    rw [show (9999 : Nat) = 9998 + 1 from by norm_num, List.range_succ]
  rw [OrderBook.addOrder]
  rw [show OrderMap.lookup [(1, 9999)] 2 = none from rfl]
  rw [h9999, allocate_concat]
  rw [if_neg (by decide)]
  dsimp only [SideBook.insertBid, SideBook.updateAt, List.map, OrderMap.insert]
  rw [if_pos (show (105 : Nat) = 105 from rfl)]
  dsimp only [LimitLevel.append, LimitLevel.create, List.nil_append]
  generalize hP : ((List.replicate 10000 (default : Order)).set 9999
      (⟨1, 105, 100, Side.Sell⟩ : Order)).set 9998 (⟨2, 105, 50, Side.Buy⟩ : Order) = P
  have hlen : P.length = 10000 := by
    rw [← hP]; simp only [List.length_set, List.length_replicate]
  have g1 : P.getD 9998 default = ⟨2, 105, 50, Side.Buy⟩ := by
    rw [← hP]
    exact getD_set_self _ _ _ (by simp only [List.length_set, List.length_replicate]; norm_num)
  have g2 : P.getD 9999 default = ⟨1, 105, 100, Side.Sell⟩ := by
    rw [← hP, getD_set_ne _ _ _ (by norm_num)]
    exact getD_set_self _ _ _ (by simp only [List.length_replicate]; norm_num)
  rw [g1]
  dsimp only
  rw [Nat.zero_add]
  exact matchOrders_one _ _ _
    (by simp only [OrderBook.totalOrders, OrderBook.allQueues, List.map_cons, List.map_nil,
          List.flatten_cons, List.flatten_nil, List.append_nil, List.nil_append,
          List.length_append, List.length_cons, List.length_nil]
        omega)
    (matchStep_s1 P hlen g1 g2) rfl

end NanoBook

namespace NanoBook

/-- C1: scenario S1 as the code actually executes it.  From the empty book,
`submit(1,105,100,Sell); submit(2,105,50,Buy)` emits exactly one trade
(order 1 vs order 2, 50 @ 105); order 2 is fully filled, removed from the
index and its slot 9998 released to the pool; order 1 rests with remaining
quantity 50; the bid book is empty; the ask book holds exactly one level at
price 105 whose queue holds only order 1.  However the level's cached
aggregate volume is 100, not the claimed 50 (the sum of remaining
quantities of its linked orders, which is 50): the fill decremented the
resting order in place without adjusting the cache, and full-fill removals
subtract a quantity that is already zero. -/
theorem s1_scenario_code_behavior :
    OrderBook.addOrder (OrderBook.addOrder OrderBook.empty 1 105 100 Side.Sell).fst
        2 105 50 Side.Buy =
      (⟨[], [(105, ⟨105, 100, [9999]⟩)], [(1, 9999)],
        ⟨((((List.replicate 10000 (default : Order)).set 9999 ⟨1, 105, 100, Side.Sell⟩).set 9998
              ⟨2, 105, 50, Side.Buy⟩).set 9998 ⟨2, 105, 0, Side.Buy⟩).set 9999
            ⟨1, 105, 50, Side.Sell⟩,
         List.range 9998 ++ [9998]⟩⟩, [⟨50, 105, 2, 1⟩]) ∧
    (((((List.replicate 10000 (default : Order)).set 9999 ⟨1, 105, 100, Side.Sell⟩).set 9998
          ⟨2, 105, 50, Side.Buy⟩).set 9998 ⟨2, 105, 0, Side.Buy⟩).set 9999
        ⟨1, 105, 50, Side.Sell⟩).getD 9999 default = ⟨1, 105, 50, Side.Sell⟩ ∧
    OrderMap.lookup [(1, 9999)] 1 = some 9999 ∧
    OrderMap.lookup [(1, 9999)] 2 = none ∧
    (9998 : Nat) ∈ List.range 9998 ++ [9998] := by
  refine ⟨s1_run, ?_, rfl, rfl, by simp⟩
  exact getD_set_self _ _ _ (by simp only [List.length_set, List.length_replicate]; norm_num)

/-- C2: the cached level volume is *not* synchronized with the sum of the
remaining quantities of the linked orders: already after scenario S1 the
surviving ask level caches 100 while its linked orders sum to 50, because
in-place fills never adjust the aggregate and a full-fill unlink subtracts
the already-zero quantity. -/
theorem submit_breaks_volume_sync :
    ¬ specVolumeInvariant
        (OrderBook.addOrder (OrderBook.addOrder OrderBook.empty 1 105 100 Side.Sell).fst
          2 105 50 Side.Buy).fst := by
  rw [s1_run]
  intro h
  have hmem : ((105 : Nat), (⟨105, 100, [9999]⟩ : LimitLevel)) ∈
      (([] : SideBook) ++ [(105, (⟨105, 100, [9999]⟩ : LimitLevel))]) := by simp
  have h105 := h _ hmem
  dsimp only at h105
  rw [List.map_cons, List.map_nil,
      getD_set_self _ _ _ (by simp only [List.length_set, List.length_replicate]; norm_num)]
      at h105
  simp at h105

end NanoBook

namespace NanoBook

theorem s4_first :
    OrderBook.addOrder OrderBook.empty 1 100 10 Side.Buy =
      (⟨[(100, ⟨100, 10, [9999]⟩)], [], [(1, 9999)],
        ⟨(List.replicate 10000 (default : Order)).set 9999 ⟨1, 100, 10, Side.Buy⟩,
         List.range 9999⟩⟩, []) := by
  have e2 : OrderBook.empty.orderPool.allocate ⟨1, 100, 10, Side.Buy⟩ =
      some (9999, ⟨(List.replicate 10000 (default : Order)).set 9999 ⟨1, 100, 10, Side.Buy⟩,
        List.range 9999⟩) := by
    show ObjectPool.allocate ⟨List.replicate 10000 default, List.range 10000⟩ _ = _
    unfold ObjectPool.allocate
    rw [show (10000 : Nat) = 9999 + 1 by norm_num, range_getLast, range_dropLast]
  unfold OrderBook.addOrder
  simp only [show OrderMap.lookup OrderBook.empty.orderMap 1 = none from rfl,
             Option.isSome_none, Bool.false_eq_true, if_false, e2]
  have e3 : ((List.replicate 10000 (default : Order)).set 9999
      ⟨1, 100, 10, Side.Buy⟩).getD 9999 default = ⟨1, 100, 10, Side.Buy⟩ :=
    getD_set_self _ _ _ (by rw [List.length_replicate]; norm_num)
  rw [show OrderBook.empty.bids = [] from rfl, show OrderBook.empty.asks = [] from rfl,
      show OrderBook.empty.orderMap.insert 1 9999 = [(1, 9999)] from rfl]
  rw [show SideBook.insertBid [] 100 = [(100, LimitLevel.create 100)] from rfl]
  simp only [SideBook.updateAt, List.map_cons, List.map_nil, LimitLevel.append,
             LimitLevel.create, e3, if_pos]
  simp only [Nat.zero_add, List.nil_append]
  generalize (List.replicate 10000 (default : Order)).set 9999
      (⟨1, 100, 10, Side.Buy⟩ : Order) = P
  rfl

theorem s4_second :
    OrderBook.addOrder (OrderBook.addOrder OrderBook.empty 1 100 10 Side.Buy).fst
        2 100 10 Side.Buy =
      (⟨[(100, ⟨100, 20, [9999, 9998]⟩)], [], [(2, 9998), (1, 9999)],
        ⟨((List.replicate 10000 (default : Order)).set 9999 ⟨1, 100, 10, Side.Buy⟩).set 9998
            ⟨2, 100, 10, Side.Buy⟩,
         List.range 9998⟩⟩, []) := by
  rw [s4_first]
  dsimp only
  have h9999 : List.range 9999 = List.range 9998 ++ [9998] := by
    rw [show (9999 : Nat) = 9998 + 1 from by norm_num, List.range_succ]
  rw [OrderBook.addOrder]
  rw [show OrderMap.lookup [(1, 9999)] 2 = none from rfl]
  rw [h9999, allocate_concat]
  rw [if_neg (by decide)]
  dsimp only [SideBook.insertBid, SideBook.updateAt, List.map, OrderMap.insert]
  rw [if_pos (show (100 : Nat) = 100 from rfl)]
  dsimp only [LimitLevel.append]
  generalize hP : ((List.replicate 10000 (default : Order)).set 9999
      (⟨1, 100, 10, Side.Buy⟩ : Order)).set 9998 (⟨2, 100, 10, Side.Buy⟩ : Order) = P
  have g1 : P.getD 9998 default = ⟨2, 100, 10, Side.Buy⟩ := by
    rw [← hP]
    exact getD_set_self _ _ _ (by simp only [List.length_set, List.length_replicate]; norm_num)
  rw [g1]
  dsimp only
  rw [show (10 : Nat) + 10 = 20 from rfl,
      show ([9999] : List Nat) ++ [9998] = [9999, 9998] from rfl]
  exact matchOrders_none _ rfl

end NanoBook

namespace NanoBook

theorem matchStep_s4a (P : List Order) (F : List Nat) (hlen : P.length = 10000)
    (g9 : P.getD 9999 default = ⟨1, 100, 10, Side.Buy⟩)
    (g7 : P.getD 9997 default = ⟨3, 100, 15, Side.Sell⟩) :
    OrderBook.matchStep ⟨[(100, ⟨100, 20, [9999, 9998]⟩)], [(100, ⟨100, 15, [9997]⟩)],
        [(3, 9997), (2, 9998), (1, 9999)], ⟨P, F⟩⟩ =
      some (⟨[(100, ⟨100, 20, [9998]⟩)], [(100, ⟨100, 15, [9997]⟩)], [(3, 9997), (2, 9998)],
        ⟨(P.set 9999 ⟨1, 100, 0, Side.Buy⟩).set 9997 ⟨3, 100, 5, Side.Sell⟩, F ++ [9999]⟩⟩,
        ⟨10, 100, 1, 3⟩) := by
  unfold OrderBook.matchStep
  dsimp only
  rw [if_neg (by norm_num)]
  dsimp only [LimitLevel.getHead, List.head?]
  rw [g9, g7]
  dsimp only
  rw [show (10 : Nat) ⊓ 15 = 10 from rfl, show (10 : Nat) - 10 = 0 from rfl]
  have e1 : (P.set 9999 ({ id := 1, price := 100, quantity := 0, side := Side.Buy } : Order)).getD
      9997 default = ⟨3, 100, 15, Side.Sell⟩ := by
    rw [getD_set_ne _ _ _ (by norm_num), g7]
  rw [e1]
  dsimp only
  rw [show (15 : Nat) - 10 = 5 from rfl]
  have e2 : ((P.set 9999 ({ id := 1, price := 100, quantity := 0, side := Side.Buy } : Order)).set
      9997 ({ id := 3, price := 100, quantity := 5, side := Side.Sell } : Order)).getD 9999 default =
      ⟨1, 100, 0, Side.Buy⟩ := by
    rw [getD_set_ne _ _ _ (by norm_num)]
    exact getD_set_self _ _ _ (by omega)
  have e3 : ((P.set 9999 ({ id := 1, price := 100, quantity := 0, side := Side.Buy } : Order)).set
      9997 ({ id := 3, price := 100, quantity := 5, side := Side.Sell } : Order)).getD 9997 default =
      ⟨3, 100, 5, Side.Sell⟩ :=
    getD_set_self _ _ _ (by simp only [List.length_set]; omega)
  unfold OrderBook.cleanupBid
  dsimp only
  rw [e2]
  rw [if_pos (show ({ id := 1, price := 100, quantity := 0, side := Side.Buy } : Order).quantity
      = 0 from rfl)]
  dsimp only
  unfold LimitLevel.remove
  rw [e2]
  dsimp only
  rw [show (([9999, 9998] : List Nat).erase 9999) = [9998] from rfl,
      show (20 : Nat) - 0 = 20 from rfl,
      show OrderMap.erase [(3, 9997), (2, 9998), (1, 9999)] 1 = [(3, 9997), (2, 9998)] from rfl]
  unfold ObjectPool.deallocate
  dsimp only
  rw [if_neg (show ¬(LimitLevel.isEmpty ⟨100, 20, [9998]⟩ = true) from by decide)]
  unfold OrderBook.cleanupAsk
  dsimp only
  rw [e3]
  rw [if_neg (show ¬(({ id := 3, price := 100, quantity := 5, side := Side.Sell } : Order).quantity
      = 0) from by norm_num)]

theorem matchStep_s4b (P : List Order) (F : List Nat) (hlen : P.length = 10000)
    (g8 : P.getD 9998 default = ⟨2, 100, 10, Side.Buy⟩)
    (g7 : P.getD 9997 default = ⟨3, 100, 5, Side.Sell⟩) :
    OrderBook.matchStep ⟨[(100, ⟨100, 20, [9998]⟩)], [(100, ⟨100, 15, [9997]⟩)],
        [(3, 9997), (2, 9998)], ⟨P, F⟩⟩ =
      some (⟨[(100, ⟨100, 20, [9998]⟩)], [], [(2, 9998)],
        ⟨(P.set 9998 ⟨2, 100, 5, Side.Buy⟩).set 9997 ⟨3, 100, 0, Side.Sell⟩, F ++ [9997]⟩⟩,
        ⟨5, 100, 2, 3⟩) := by
  unfold OrderBook.matchStep
  dsimp only
  rw [if_neg (by norm_num)]
  dsimp only [LimitLevel.getHead, List.head?]
  rw [g8, g7]
  dsimp only
  rw [show (10 : Nat) ⊓ 5 = 5 from rfl, show (10 : Nat) - 5 = 5 from rfl]
  have e1 : (P.set 9998 ({ id := 2, price := 100, quantity := 5, side := Side.Buy } : Order)).getD
      9997 default = ⟨3, 100, 5, Side.Sell⟩ := by
    rw [getD_set_ne _ _ _ (by norm_num), g7]
  rw [e1]
  dsimp only
  rw [show (5 : Nat) - 5 = 0 from rfl]
  have e2 : ((P.set 9998 ({ id := 2, price := 100, quantity := 5, side := Side.Buy } : Order)).set
      9997 ({ id := 3, price := 100, quantity := 0, side := Side.Sell } : Order)).getD 9998 default =
      ⟨2, 100, 5, Side.Buy⟩ := by
    rw [getD_set_ne _ _ _ (by norm_num)]
    exact getD_set_self _ _ _ (by omega)
  have e3 : ((P.set 9998 ({ id := 2, price := 100, quantity := 5, side := Side.Buy } : Order)).set
      9997 ({ id := 3, price := 100, quantity := 0, side := Side.Sell } : Order)).getD 9997 default =
      ⟨3, 100, 0, Side.Sell⟩ :=
    getD_set_self _ _ _ (by simp only [List.length_set]; omega)
  unfold OrderBook.cleanupBid
  dsimp only
  rw [e2]
  rw [if_neg (show ¬(({ id := 2, price := 100, quantity := 5, side := Side.Buy } : Order).quantity
      = 0) from by norm_num)]
  unfold OrderBook.cleanupAsk
  dsimp only
  rw [e3]
  rw [if_pos (show ({ id := 3, price := 100, quantity := 0, side := Side.Sell } : Order).quantity
      = 0 from rfl)]
  dsimp only
  unfold LimitLevel.remove
  rw [e3]
  dsimp only
  rw [show (([9997] : List Nat).erase 9997) = [] from rfl,
      show (15 : Nat) - 0 = 15 from rfl,
      show OrderMap.erase [(3, 9997), (2, 9998)] 3 = [(2, 9998)] from rfl]
  unfold ObjectPool.deallocate
  dsimp only
  rw [if_pos (show LimitLevel.isEmpty ⟨100, 15, []⟩ = true from rfl)]

end NanoBook

namespace NanoBook

theorem s4_run :
    OrderBook.addOrder (OrderBook.addOrder (OrderBook.addOrder OrderBook.empty
        1 100 10 Side.Buy).fst 2 100 10 Side.Buy).fst 3 100 15 Side.Sell =
      (⟨[(100, ⟨100, 20, [9998]⟩)], [], [(2, 9998)],
        ⟨(((((((List.replicate 10000 (default : Order)).set 9999 ⟨1, 100, 10, Side.Buy⟩).set 9998
                ⟨2, 100, 10, Side.Buy⟩).set 9997 ⟨3, 100, 15, Side.Sell⟩).set 9999
                ⟨1, 100, 0, Side.Buy⟩).set 9997 ⟨3, 100, 5, Side.Sell⟩).set 9998
                ⟨2, 100, 5, Side.Buy⟩).set 9997 ⟨3, 100, 0, Side.Sell⟩,
         (List.range 9997 ++ [9999]) ++ [9997]⟩⟩, [⟨10, 100, 1, 3⟩, ⟨5, 100, 2, 3⟩]) := by
  rw [s4_second]
  dsimp only
  have h9998 : List.range 9998 = List.range 9997 ++ [9997] := by
    rw [show (9998 : Nat) = 9997 + 1 from by norm_num, List.range_succ]
  rw [OrderBook.addOrder]
  rw [show OrderMap.lookup [(2, 9998), (1, 9999)] 3 = none from rfl]
  rw [h9998, allocate_concat]
  rw [if_neg (by decide)]
  dsimp only [SideBook.insertAsk, SideBook.updateAt, List.map, OrderMap.insert]
  rw [if_pos (show (100 : Nat) = 100 from rfl)]
  dsimp only [LimitLevel.append, LimitLevel.create, List.nil_append]
  generalize hP : (((List.replicate 10000 (default : Order)).set 9999
      (⟨1, 100, 10, Side.Buy⟩ : Order)).set 9998 (⟨2, 100, 10, Side.Buy⟩ : Order)).set 9997
      (⟨3, 100, 15, Side.Sell⟩ : Order) = P
  have hlen : P.length = 10000 := by
    rw [← hP]; simp only [List.length_set, List.length_replicate]
  have g7 : P.getD 9997 default = ⟨3, 100, 15, Side.Sell⟩ := by
    rw [← hP]
    exact getD_set_self _ _ _
      (by simp only [List.length_set, List.length_replicate]; norm_num)
  have g8 : P.getD 9998 default = ⟨2, 100, 10, Side.Buy⟩ := by
    rw [← hP, getD_set_ne _ _ _ (by norm_num)]
    exact getD_set_self _ _ _
      (by simp only [List.length_set, List.length_replicate]; norm_num)
  have g9 : P.getD 9999 default = ⟨1, 100, 10, Side.Buy⟩ := by
    rw [← hP, getD_set_ne _ _ _ (by norm_num), getD_set_ne _ _ _ (by norm_num)]
    exact getD_set_self _ _ _ (by simp only [List.length_replicate]; norm_num)
  rw [g7]
  dsimp only
  rw [Nat.zero_add]
  refine matchOrders_two _ _ _ _ _
    (by simp only [OrderBook.totalOrders, OrderBook.allQueues, List.map_cons, List.map_nil,
          List.flatten_cons, List.flatten_nil, List.append_nil, List.nil_append,
          List.length_append, List.length_cons, List.length_nil]
        omega)
    (matchStep_s4a P (List.range 9997) hlen g9 g7) ?_ rfl
  exact matchStep_s4b _ _ (by simp only [List.length_set]; omega)
    (by rw [getD_set_ne _ _ _ (by norm_num), getD_set_ne _ _ _ (by norm_num), g8])
    (getD_set_self _ _ _ (by simp only [List.length_set]; omega))

end NanoBook

namespace NanoBook

/-- C8: scenario S4 — price-time priority.  From the empty book,
`submit(1,100,10,Buy); submit(2,100,10,Buy); submit(3,100,15,Sell)` emits
exactly two trades, order 1 vs order 3 for 10 and then order 2 vs order 3
for 5, in that order; orders 1 and 3 are erased from the index and their
slots (9999 and 9997) released to the pool; order 2 remains resting at the
sole bid level at 100 with remaining quantity 5 (the head of the FIFO
queue matched first and the partial fill did not reorder the queue). -/
theorem s4_price_time_priority :
    OrderBook.addOrder (OrderBook.addOrder (OrderBook.addOrder OrderBook.empty
        1 100 10 Side.Buy).fst 2 100 10 Side.Buy).fst 3 100 15 Side.Sell =
      (⟨[(100, ⟨100, 20, [9998]⟩)], [], [(2, 9998)],
        ⟨(((((((List.replicate 10000 (default : Order)).set 9999 ⟨1, 100, 10, Side.Buy⟩).set 9998
                ⟨2, 100, 10, Side.Buy⟩).set 9997 ⟨3, 100, 15, Side.Sell⟩).set 9999
                ⟨1, 100, 0, Side.Buy⟩).set 9997 ⟨3, 100, 5, Side.Sell⟩).set 9998
                ⟨2, 100, 5, Side.Buy⟩).set 9997 ⟨3, 100, 0, Side.Sell⟩,
         (List.range 9997 ++ [9999]) ++ [9997]⟩⟩, [⟨10, 100, 1, 3⟩, ⟨5, 100, 2, 3⟩]) ∧
    ((((((((List.replicate 10000 (default : Order)).set 9999 ⟨1, 100, 10, Side.Buy⟩).set 9998
          ⟨2, 100, 10, Side.Buy⟩).set 9997 ⟨3, 100, 15, Side.Sell⟩).set 9999
          ⟨1, 100, 0, Side.Buy⟩).set 9997 ⟨3, 100, 5, Side.Sell⟩).set 9998
          ⟨2, 100, 5, Side.Buy⟩).set 9997 ⟨3, 100, 0, Side.Sell⟩).getD 9998 default =
      ⟨2, 100, 5, Side.Buy⟩ ∧
    OrderMap.lookup [(2, 9998)] 1 = none ∧
    OrderMap.lookup [(2, 9998)] 3 = none ∧
    OrderMap.lookup [(2, 9998)] 2 = some 9998 ∧
    (9999 : Nat) ∈ (List.range 9997 ++ [9999]) ++ [9997] ∧
    (9997 : Nat) ∈ (List.range 9997 ++ [9999]) ++ [9997] := by
  refine ⟨s4_run, ?_, rfl, rfl, rfl, by simp, by simp⟩
  rw [getD_set_ne _ _ _ (by norm_num)]
  exact getD_set_self _ _ _
    (by simp only [List.length_set, List.length_replicate]; norm_num)

end NanoBook

namespace NanoBook

/-! ## Level lookup lemmas -/

theorem findLevel_insertBid (m : SideBook) (p : Nat) :
    ∃ L, SideBook.findLevel (SideBook.insertBid m p) p = some L ∧
      (L = LimitLevel.create p ∨ SideBook.findLevel m p = some L) := by
  induction m with
  | nil =>
      exact ⟨LimitLevel.create p, by simp [SideBook.insertBid, SideBook.findLevel], Or.inl rfl⟩
  | cons e rest ih =>
      obtain ⟨q, L0⟩ := e
      by_cases h1 : q < p
      · refine ⟨LimitLevel.create p, ?_, Or.inl rfl⟩
        simp [SideBook.insertBid, h1, SideBook.findLevel]
      · by_cases h2 : p = q
        · refine ⟨L0, ?_, Or.inr ?_⟩ <;>
            simp [SideBook.insertBid, h1, h2, SideBook.findLevel, List.find?_cons_of_pos]
        · obtain ⟨L, hL, hcase⟩ := ih
          refine ⟨L, ?_, ?_⟩
          · simp only [SideBook.insertBid, if_neg h1, if_neg h2]
            unfold SideBook.findLevel at hL ⊢
            rw [List.find?_cons_of_neg _ (by simp [Ne.symm h2])]
            exact hL
          · rcases hcase with h | h
            · exact Or.inl h
            · refine Or.inr ?_
              unfold SideBook.findLevel at h ⊢
              rw [List.find?_cons_of_neg _ (by simp [Ne.symm h2])]
              exact h

theorem findLevel_insertAsk (m : SideBook) (p : Nat) :
    ∃ L, SideBook.findLevel (SideBook.insertAsk m p) p = some L ∧
      (L = LimitLevel.create p ∨ SideBook.findLevel m p = some L) := by
  induction m with
  | nil =>
      exact ⟨LimitLevel.create p, by simp [SideBook.insertAsk, SideBook.findLevel], Or.inl rfl⟩
  | cons e rest ih =>
      obtain ⟨q, L0⟩ := e
      by_cases h1 : p < q
      · refine ⟨LimitLevel.create p, ?_, Or.inl rfl⟩
        simp [SideBook.insertAsk, h1, SideBook.findLevel]
      · by_cases h2 : p = q
        · refine ⟨L0, ?_, Or.inr ?_⟩ <;>
            simp [SideBook.insertAsk, h1, h2, SideBook.findLevel, List.find?_cons_of_pos]
        · obtain ⟨L, hL, hcase⟩ := ih
          refine ⟨L, ?_, ?_⟩
          · simp only [SideBook.insertAsk, if_neg h1, if_neg h2]
            unfold SideBook.findLevel at hL ⊢
            rw [List.find?_cons_of_neg _ (by simp [Ne.symm h2])]
            exact hL
          · rcases hcase with h | h
            · exact Or.inl h
            · refine Or.inr ?_
              unfold SideBook.findLevel at h ⊢
              rw [List.find?_cons_of_neg _ (by simp [Ne.symm h2])]
              exact h

theorem findLevel_updateAt (m : SideBook) (p : Nat) (f : LimitLevel → LimitLevel) :
    SideBook.findLevel (SideBook.updateAt m p f) p = (SideBook.findLevel m p).map f := by
  induction m with
  | nil => rfl
  | cons e rest ih =>
      by_cases h : e.fst = p
      · unfold SideBook.updateAt SideBook.findLevel
        rw [List.map_cons, if_pos h, List.find?_cons_of_pos _ (by simp [h]),
            List.find?_cons_of_pos _ (by simp [h])]
        rfl
      · unfold SideBook.updateAt SideBook.findLevel
        rw [List.map_cons, if_neg h, List.find?_cons_of_neg _ (by simp [h]),
            List.find?_cons_of_neg _ (by simp [h])]
        exact ih

theorem matchStep_asks_nil (b : OrderBook) (h : b.asks = []) :
    OrderBook.matchStep b = none := by
  unfold OrderBook.matchStep
  rw [h]
  rcases b.bids with _ | ⟨⟨p, L⟩, rest⟩ <;> rfl

theorem matchStep_bids_nil (b : OrderBook) (h : b.bids = []) :
    OrderBook.matchStep b = none := by
  unfold OrderBook.matchStep
  rw [h]

theorem lookup_insert_self (m : OrderMap) (id idx : Nat) :
    OrderMap.lookup (OrderMap.insert m id idx) id = some idx := by
  unfold OrderMap.lookup OrderMap.insert
  rw [List.find?_cons_of_pos _ (by simp)]
  rfl

end NanoBook

namespace NanoBook

theorem addOrder_fresh_buy (b : OrderBook) (id p q : Nat) (f : List Nat) (idx : Nat)
    (hid : OrderMap.lookup b.orderMap id = none)
    (hfi : b.orderPool.freeIndices = f ++ [idx]) :
    OrderBook.addOrder b id p q Side.Buy =
      OrderBook.matchOrders ⟨(SideBook.insertBid b.bids p).updateAt p
          (fun L => LimitLevel.append (b.orderPool.pool.set idx ⟨id, p, q, Side.Buy⟩) L idx),
        b.asks, OrderMap.insert b.orderMap id idx,
        ⟨b.orderPool.pool.set idx ⟨id, p, q, Side.Buy⟩, f⟩⟩ := by
  unfold OrderBook.addOrder
  rw [hid]
  rw [if_neg (by decide)]
  have ha : b.orderPool.allocate ⟨id, p, q, Side.Buy⟩ =
      some (idx, ⟨b.orderPool.pool.set idx ⟨id, p, q, Side.Buy⟩, f⟩) := by
    unfold ObjectPool.allocate
    rw [hfi, List.getLast?_concat, List.dropLast_concat]
  rw [ha]

theorem addOrder_fresh_sell (b : OrderBook) (id p q : Nat) (f : List Nat) (idx : Nat)
    (hid : OrderMap.lookup b.orderMap id = none)
    (hfi : b.orderPool.freeIndices = f ++ [idx]) :
    OrderBook.addOrder b id p q Side.Sell =
      OrderBook.matchOrders ⟨b.bids,
        (SideBook.insertAsk b.asks p).updateAt p
          (fun L => LimitLevel.append (b.orderPool.pool.set idx ⟨id, p, q, Side.Sell⟩) L idx),
        OrderMap.insert b.orderMap id idx,
        ⟨b.orderPool.pool.set idx ⟨id, p, q, Side.Sell⟩, f⟩⟩ := by
  unfold OrderBook.addOrder
  rw [hid]
  rw [if_neg (by decide)]
  have ha : b.orderPool.allocate ⟨id, p, q, Side.Sell⟩ =
      some (idx, ⟨b.orderPool.pool.set idx ⟨id, p, q, Side.Sell⟩, f⟩) := by
    unfold ObjectPool.allocate
    rw [hfi, List.getLast?_concat, List.dropLast_concat]
  rw [ha]

end NanoBook

namespace NanoBook

/-- C10: `addOrder` does not enforce the `quantity > 0` precondition.  For
any book state whose free stack is non-empty (with the pool's
representation property that free indices are valid slots), submitting a
fresh identifier with quantity 0 against an empty opposite book is
accepted: no trade is emitted, the identifier is inserted into the index,
a record with remaining quantity 0 is written to the acquired slot, and
that slot is linked into the level at the submitted price — the order
rests instead of being rejected. -/
theorem submit_zero_quantity_accepted (b : OrderBook) (id p : Nat) (s : Side)
    (hid : OrderMap.lookup b.orderMap id = none)
    (hfree : b.orderPool.freeIndices ≠ [])
    (hvalid : ∀ i ∈ b.orderPool.freeIndices, i < b.orderPool.pool.length)
    (hopp : oppositeBook b s = []) :
    ∃ idx, (OrderBook.addOrder b id p 0 s).snd = [] ∧
      OrderMap.lookup (OrderBook.addOrder b id p 0 s).fst.orderMap id = some idx ∧
      ((OrderBook.addOrder b id p 0 s).fst.orderPool.pool.getD idx default) = ⟨id, p, 0, s⟩ ∧
      ∃ L, SideBook.findLevel (ownBook (OrderBook.addOrder b id p 0 s).fst s) p = some L ∧
        idx ∈ L.queue := by
  rcases List.eq_nil_or_concat b.orderPool.freeIndices with hnil | ⟨f, idx, hfi⟩
  · exact absurd hnil hfree
  rw [List.concat_eq_append] at hfi
  have hidx : idx < b.orderPool.pool.length := hvalid idx (by rw [hfi]; simp)
  refine ⟨idx, ?_⟩
  cases s with
  | Buy =>
      rw [addOrder_fresh_buy b id p 0 f idx hid hfi]
      rw [matchOrders_none _ (matchStep_asks_nil _ (by exact hopp))]
      refine ⟨rfl, lookup_insert_self _ _ _, getD_set_self _ _ _ hidx, ?_⟩
      obtain ⟨L, hL, _⟩ := findLevel_insertBid b.bids p
      refine ⟨LimitLevel.append (b.orderPool.pool.set idx ⟨id, p, 0, Side.Buy⟩) L idx, ?_, ?_⟩
      · dsimp only [ownBook]
        rw [findLevel_updateAt, hL]
        rfl
      · unfold LimitLevel.append
        simp
  | Sell =>
      rw [addOrder_fresh_sell b id p 0 f idx hid hfi]
      rw [matchOrders_none _ (matchStep_bids_nil _ (by exact hopp))]
      refine ⟨rfl, lookup_insert_self _ _ _, getD_set_self _ _ _ hidx, ?_⟩
      obtain ⟨L, hL, _⟩ := findLevel_insertAsk b.asks p
      refine ⟨LimitLevel.append (b.orderPool.pool.set idx ⟨id, p, 0, Side.Sell⟩) L idx, ?_, ?_⟩
      · dsimp only [ownBook]
        rw [findLevel_updateAt, hL]
        rfl
      · unfold LimitLevel.append
        simp

theorem submit_zero_quantity_accepted_witness :
    (OrderMap.lookup ([] : OrderMap) 1 = none ∧
      (⟨[], [], [], ⟨[default], [0]⟩⟩ : OrderBook).orderPool.freeIndices ≠ [] ∧
      (∀ i ∈ (⟨[], [], [], ⟨[default], [0]⟩⟩ : OrderBook).orderPool.freeIndices,
        i < (⟨[], [], [], ⟨[default], [0]⟩⟩ : OrderBook).orderPool.pool.length) ∧
      oppositeBook ⟨[], [], [], ⟨[default], [0]⟩⟩ Side.Buy = []) ∧
    (∃ idx, (OrderBook.addOrder ⟨[], [], [], ⟨[default], [0]⟩⟩ 1 100 0 Side.Buy).snd = [] ∧
      OrderMap.lookup (OrderBook.addOrder ⟨[], [], [], ⟨[default], [0]⟩⟩
        1 100 0 Side.Buy).fst.orderMap 1 = some idx ∧
      ((OrderBook.addOrder ⟨[], [], [], ⟨[default], [0]⟩⟩
        1 100 0 Side.Buy).fst.orderPool.pool.getD idx default) = ⟨1, 100, 0, Side.Buy⟩ ∧
      ∃ L, SideBook.findLevel (ownBook (OrderBook.addOrder ⟨[], [], [], ⟨[default], [0]⟩⟩
          1 100 0 Side.Buy).fst Side.Buy) 100 = some L ∧
        idx ∈ L.queue) :=
  ⟨⟨by decide, by decide, by decide, by decide⟩,
   submit_zero_quantity_accepted ⟨[], [], [], ⟨[default], [0]⟩⟩ 1 100 Side.Buy
     (by decide) (by decide) (by decide) (by decide)⟩

end NanoBook

namespace NanoBook

/-! ## matchStep inversion and pool write lemmas -/

theorem set_oob {α : Type} (l : List α) {i : Nat} (a : α) (h : l.length ≤ i) :
    l.set i a = l :=
  List.set_eq_of_length_le h

theorem getD_oob {α : Type} (l : List α) {i : Nat} (d : α) (h : l.length ≤ i) :
    l.getD i d = d := by
  simp [List.getD, List.getElem?_eq_none h]

theorem length_set_eq {α : Type} (l : List α) (i : Nat) (a : α) :
    (l.set i a).length = l.length := List.length_set l i a

/-- Setting a slot to a record with the same price leaves every slot's
price unchanged. -/
theorem price_preserved_set (l : List Order) (i : Nat) (v : Order)
    (h : v.price = (l.getD i default).price) :
    ∀ j, ((l.set i v).getD j default).price = (l.getD j default).price := by
  intro j
  by_cases hj : i = j
  · subst hj
    by_cases hi : i < l.length
    · rw [getD_set_self _ _ _ hi, h]
    · rw [set_oob _ _ (by omega)]
  · rw [getD_set_ne _ _ _ hj]

end NanoBook

namespace NanoBook

theorem matchStep_some_inv (b b' : OrderBook) (t : Trade)
    (h : OrderBook.matchStep b = some (b', t)) :
    ∃ bp bL restB ap aL restA bidIdx askIdx,
      b.bids = (bp, bL) :: restB ∧ b.asks = (ap, aL) :: restA ∧
      ¬ bL.price < aL.price ∧
      bL.queue.head? = some bidIdx ∧ aL.queue.head? = some askIdx ∧
      t = ⟨min (b.orderPool.pool.getD bidIdx default).quantity
             (b.orderPool.pool.getD askIdx default).quantity,
           aL.price,
           (b.orderPool.pool.getD bidIdx default).id,
           (b.orderPool.pool.getD askIdx default).id⟩ ∧
      b' = OrderBook.cleanupAsk
             (OrderBook.cleanupBid
               ⟨b.bids, b.asks, b.orderMap,
                ⟨fillPool b.orderPool.pool bidIdx askIdx
                    (min (b.orderPool.pool.getD bidIdx default).quantity
                      (b.orderPool.pool.getD askIdx default).quantity),
                 b.orderPool.freeIndices⟩⟩
               bidIdx) askIdx := by
  unfold OrderBook.matchStep at h
  split at h
  case h_2 => exact absurd h (by simp)
  case h_1 bp bL restB ap aL restA heqb heqa =>
    by_cases hlt : bL.price < aL.price
    · rw [if_pos hlt] at h
      exact absurd h (by simp)
    · rw [if_neg hlt] at h
      split at h
      next bidIdx askIdx hbh hah =>
        dsimp only at h
        rw [Option.some_inj] at h
        have hb' := congrArg Prod.fst h
        have ht := congrArg Prod.snd h
        dsimp only at hb' ht
        exact ⟨bp, bL, restB, ap, aL, restA, bidIdx, askIdx, heqb, heqa, hlt,
               hbh, hah, ht.symm, hb'.symm⟩
      next => exact absurd h (by simp)

end NanoBook

namespace NanoBook

theorem matchStep_none_inv (b : OrderBook) (h : OrderBook.matchStep b = none) :
    b.bids = [] ∨ b.asks = [] ∨
    ∃ bp bL restB ap aL restA, b.bids = (bp, bL) :: restB ∧ b.asks = (ap, aL) :: restA ∧
      (bL.price < aL.price ∨ bL.queue.head? = none ∨ aL.queue.head? = none) := by
  rcases hbb : b.bids with _ | ⟨⟨bp, bL⟩, restB⟩
  · exact Or.inl rfl
  rcases haa : b.asks with _ | ⟨⟨ap, aL⟩, restA⟩
  · exact Or.inr (Or.inl rfl)
  refine Or.inr (Or.inr ⟨bp, bL, restB, ap, aL, restA, rfl, rfl, ?_⟩)
  by_cases hlt : bL.price < aL.price
  · exact Or.inl hlt
  rcases hbq : bL.queue.head? with _ | bidIdx
  · exact Or.inr (Or.inl rfl)
  rcases haq : aL.queue.head? with _ | askIdx
  · exact Or.inr (Or.inr rfl)
  exfalso
  unfold OrderBook.matchStep at h
  rw [hbb, haa] at h
  dsimp only at h
  rw [if_neg hlt] at h
  dsimp only [LimitLevel.getHead] at h
  rw [hbq, haq] at h
  exact Option.noConfusion h

theorem uncrossed_of_matchStep_none (b : OrderBook) (hW : WFcore b)
    (h : OrderBook.matchStep b = none) : uncrossed b := by
  intro e₁ he₁ e₂ he₂
  obtain ⟨hbS, haS, hbE, haE, hQN, hFN, hFV⟩ := hW
  rcases matchStep_none_inv b h with hnil | hnil | hx
  · rw [hnil] at he₁; exact absurd he₁ (by simp)
  · rw [hnil] at he₂; exact absurd he₂ (by simp)
  obtain ⟨bp, bL, restB, ap, aL, restA, hbb, haa, hcase⟩ := hx
  rw [hbb] at he₁
  rw [haa] at he₂
  rw [List.head?_cons, Option.mem_def, Option.some_inj] at he₁ he₂
  subst he₁
  subst he₂
  have hbKey := (hbE _ (by rw [hbb]; exact List.mem_cons_self _ _)).1
  have haKey := (haE _ (by rw [haa]; exact List.mem_cons_self _ _)).1
  have hbNE := (hbE _ (by rw [hbb]; exact List.mem_cons_self _ _)).2.1
  have haNE := (haE _ (by rw [haa]; exact List.mem_cons_self _ _)).2.1
  dsimp only at hbKey haKey hbNE haNE
  rcases hcase with hlt | hq | hq
  · rw [← hbKey, ← haKey]; exact hlt
  · exact absurd (List.head?_eq_none_iff.mp hq) hbNE
  · exact absurd (List.head?_eq_none_iff.mp hq) haNE

end NanoBook

namespace NanoBook

theorem head_eq_cons {α : Type} (l : List α) (a : α) (h : l.head? = some a) :
    ∃ t, l = a :: t := by
  cases l with
  | nil => simp at h
  | cons x xs => simp at h; exact ⟨xs, by rw [h]⟩

/-! ## Cleanup characterization -/

theorem cleanupBid_not_fired (b : OrderBook) (idx : Nat)
    (h : (b.orderPool.pool.getD idx default).quantity ≠ 0) :
    OrderBook.cleanupBid b idx = b := by
  unfold OrderBook.cleanupBid
  rw [if_neg h]

theorem cleanupAsk_not_fired (b : OrderBook) (idx : Nat)
    (h : (b.orderPool.pool.getD idx default).quantity ≠ 0) :
    OrderBook.cleanupAsk b idx = b := by
  unfold OrderBook.cleanupAsk
  rw [if_neg h]

theorem cleanupBid_fired_drop (b : OrderBook) (bp : Nat) (bL : LimitLevel)
    (restB : SideBook) (idx : Nat)
    (hb : b.bids = (bp, bL) :: restB) (hq : bL.queue = [idx])
    (h0 : (b.orderPool.pool.getD idx default).quantity = 0) :
    OrderBook.cleanupBid b idx =
      ⟨restB, b.asks, OrderMap.erase b.orderMap (b.orderPool.pool.getD idx default).id,
       ObjectPool.deallocate b.orderPool idx⟩ := by
  unfold OrderBook.cleanupBid
  rw [if_pos h0, hb]
  dsimp only
  rw [if_pos ?hc]
  case hc =>
    dsimp only [LimitLevel.remove, LimitLevel.isEmpty]
    rw [hq, List.erase_cons_head]
    rfl

theorem cleanupBid_fired_keep (b : OrderBook) (bp : Nat) (bL : LimitLevel)
    (restB : SideBook) (idx : Nat) (tl : List Nat)
    (hb : b.bids = (bp, bL) :: restB) (hq : bL.queue = idx :: tl) (htl : tl ≠ [])
    (h0 : (b.orderPool.pool.getD idx default).quantity = 0) :
    OrderBook.cleanupBid b idx =
      ⟨(bp, LimitLevel.remove b.orderPool.pool bL idx) :: restB, b.asks,
       OrderMap.erase b.orderMap (b.orderPool.pool.getD idx default).id,
       ObjectPool.deallocate b.orderPool idx⟩ := by
  unfold OrderBook.cleanupBid
  rw [if_pos h0, hb]
  dsimp only
  rw [if_neg ?hc]
  case hc =>
    dsimp only [LimitLevel.remove, LimitLevel.isEmpty]
    rw [hq, List.erase_cons_head]
    simpa using htl

theorem cleanupAsk_fired_drop (b : OrderBook) (ap : Nat) (aL : LimitLevel)
    (restA : SideBook) (idx : Nat)
    (ha : b.asks = (ap, aL) :: restA) (hq : aL.queue = [idx])
    (h0 : (b.orderPool.pool.getD idx default).quantity = 0) :
    OrderBook.cleanupAsk b idx =
      ⟨b.bids, restA, OrderMap.erase b.orderMap (b.orderPool.pool.getD idx default).id,
       ObjectPool.deallocate b.orderPool idx⟩ := by
  unfold OrderBook.cleanupAsk
  rw [if_pos h0, ha]
  dsimp only
  rw [if_pos ?hc]
  case hc =>
    dsimp only [LimitLevel.remove, LimitLevel.isEmpty]
    rw [hq, List.erase_cons_head]
    rfl

theorem cleanupAsk_fired_keep (b : OrderBook) (ap : Nat) (aL : LimitLevel)
    (restA : SideBook) (idx : Nat) (tl : List Nat)
    (ha : b.asks = (ap, aL) :: restA) (hq : aL.queue = idx :: tl) (htl : tl ≠ [])
    (h0 : (b.orderPool.pool.getD idx default).quantity = 0) :
    OrderBook.cleanupAsk b idx =
      ⟨b.bids, (ap, LimitLevel.remove b.orderPool.pool aL idx) :: restA,
       OrderMap.erase b.orderMap (b.orderPool.pool.getD idx default).id,
       ObjectPool.deallocate b.orderPool idx⟩ := by
  unfold OrderBook.cleanupAsk
  rw [if_pos h0, ha]
  dsimp only
  rw [if_neg ?hc]
  case hc =>
    dsimp only [LimitLevel.remove, LimitLevel.isEmpty]
    rw [hq, List.erase_cons_head]
    simpa using htl

end NanoBook

namespace NanoBook

theorem fillPool_length (pool : List Order) (bidIdx askIdx fill : Nat) :
    (fillPool pool bidIdx askIdx fill).length = pool.length := by
  unfold fillPool
  simp only [List.length_set]

theorem price_preserved_decrement (l : List Order) (i q : Nat) (j : Nat) :
    ((l.set i ⟨(l.getD i default).id, (l.getD i default).price,
        (l.getD i default).quantity - q, (l.getD i default).side⟩).getD j default).price =
      (l.getD j default).price := by
  apply price_preserved_set
  rfl

theorem fillPool_price (pool : List Order) (bidIdx askIdx fill : Nat) (j : Nat) :
    ((fillPool pool bidIdx askIdx fill).getD j default).price =
      (pool.getD j default).price := by
  unfold fillPool
  dsimp only
  rw [price_preserved_decrement, price_preserved_decrement]

theorem fillPool_zero (pool : List Order) (bidIdx askIdx : Nat) :
    ((fillPool pool bidIdx askIdx (min (pool.getD bidIdx default).quantity
        (pool.getD askIdx default).quantity)).getD bidIdx default).quantity = 0 ∨
    ((fillPool pool bidIdx askIdx (min (pool.getD bidIdx default).quantity
        (pool.getD askIdx default).quantity)).getD askIdx default).quantity = 0 := by
  unfold fillPool
  dsimp only
  by_cases hbi : bidIdx < pool.length
  · by_cases heq : askIdx = bidIdx
    · subst heq
      left
      rw [getD_set_self _ _ _ (by rw [List.length_set]; exact hbi)]
      dsimp only
      rw [getD_set_self _ _ _ hbi]
      dsimp only
      omega
    · by_cases hle : (pool.getD bidIdx default).quantity ≤ (pool.getD askIdx default).quantity
      · left
        rw [getD_set_ne _ _ _ heq, getD_set_self _ _ _ hbi]
        dsimp only
        omega
      · right
        by_cases hai : askIdx < pool.length
        · rw [getD_set_self _ _ _ (by rw [List.length_set]; exact hai)]
          dsimp only
          rw [getD_set_ne _ _ _ (Ne.symm heq)]
          omega
        · rw [set_oob _ _ (by rw [List.length_set]; omega)]
          rw [getD_set_ne _ _ _ (Ne.symm heq), getD_oob _ _ (by omega)]
          rfl
  · rw [set_oob pool _ (by omega)]
    left
    by_cases heq : askIdx = bidIdx
    · subst heq
      rw [set_oob _ _ (by omega), getD_oob _ _ (by omega)]
      rfl
    · rw [getD_set_ne _ _ _ heq, getD_oob _ _ (by omega)]
      rfl

end NanoBook

namespace NanoBook

theorem totalOrders_cleanupAsk_le (b : OrderBook) (idx : Nat) :
    OrderBook.totalOrders (OrderBook.cleanupAsk b idx) ≤ OrderBook.totalOrders b := by
  by_cases h0 : (b.orderPool.pool.getD idx default).quantity = 0
  · rcases haa : b.asks with _ | ⟨⟨ap, aL⟩, restA⟩
    · unfold OrderBook.cleanupAsk
      rw [if_pos h0, haa]
    · unfold OrderBook.cleanupAsk
      rw [if_pos h0, haa]
      dsimp only
      have herase := List.length_erase_le idx aL.queue
      split
      · unfold OrderBook.totalOrders OrderBook.allQueues
        rw [haa]
        simp only [List.map_cons, List.flatten_cons, List.length_append, List.length_cons]
        omega
      · unfold OrderBook.totalOrders OrderBook.allQueues
        rw [haa]
        simp only [List.map_cons, List.flatten_cons, List.length_append, List.length_cons,
                   LimitLevel.remove]
        omega
  · rw [cleanupAsk_not_fired b idx h0]

end NanoBook

namespace NanoBook

theorem matchStep_totalOrders_lt (b b' : OrderBook) (t : Trade)
    (h : OrderBook.matchStep b = some (b', t)) :
    OrderBook.totalOrders b' < OrderBook.totalOrders b := by
  obtain ⟨bp, bL, restB, ap, aL, restA, bidIdx, askIdx, hbb, haa, hlt, hbh, hah, ht, hb'⟩ :=
    matchStep_some_inv b b' t h
  obtain ⟨tlB, hqB⟩ := head_eq_cons _ _ hbh
  obtain ⟨tlA, hqA⟩ := head_eq_cons _ _ hah
  subst hb'
  by_cases hbz : ((fillPool b.orderPool.pool bidIdx askIdx
      (min (b.orderPool.pool.getD bidIdx default).quantity
        (b.orderPool.pool.getD askIdx default).quantity)).getD bidIdx default).quantity = 0
  · -- the bid head is fully filled and unlinked
    by_cases htl : tlB = []
    · subst htl
      rw [cleanupBid_fired_drop _ bp bL restB bidIdx (by exact hbb) (by rw [hqB]) hbz]
      refine lt_of_le_of_lt (totalOrders_cleanupAsk_le _ _) ?_
      unfold OrderBook.totalOrders OrderBook.allQueues
      dsimp only
      rw [hbb]
      simp only [List.map_cons, List.flatten_cons, List.length_append, List.length_cons, hqB]
      omega
    · rw [cleanupBid_fired_keep _ bp bL restB bidIdx tlB (by exact hbb) (by exact hqB) htl hbz]
      refine lt_of_le_of_lt (totalOrders_cleanupAsk_le _ _) ?_
      unfold OrderBook.totalOrders OrderBook.allQueues
      dsimp only
      rw [hbb]
      simp only [List.map_cons, List.flatten_cons, List.length_append, List.length_cons,
                 LimitLevel.remove, hqB, List.erase_cons_head]
      omega
  · -- then the ask head is fully filled
    rw [cleanupBid_not_fired _ bidIdx hbz]
    rcases fillPool_zero b.orderPool.pool bidIdx askIdx with hz | hz
    · exact absurd hz hbz
    by_cases htl : tlA = []
    · subst htl
      rw [cleanupAsk_fired_drop _ ap aL restA askIdx (by exact haa) (by rw [hqA]) hz]
      unfold OrderBook.totalOrders OrderBook.allQueues
      dsimp only
      rw [haa]
      simp only [List.map_cons, List.flatten_cons, List.length_append, List.length_cons, hqA]
      omega
    · rw [cleanupAsk_fired_keep _ ap aL restA askIdx tlA (by exact haa) (by exact hqA) htl hz]
      unfold OrderBook.totalOrders OrderBook.allQueues
      dsimp only
      rw [haa]
      simp only [List.map_cons, List.flatten_cons, List.length_append, List.length_cons,
                 LimitLevel.remove, hqA, List.erase_cons_head]
      omega

end NanoBook

namespace NanoBook

theorem matchLoop_fixpoint (fuel : Nat) (b : OrderBook) (acc : List Trade)
    (h : OrderBook.totalOrders b ≤ fuel) :
    OrderBook.matchStep (OrderBook.matchLoop fuel b acc).fst = none := by
  induction fuel generalizing b acc with
  | zero =>
      cases hs : OrderBook.matchStep b with
      | none => simpa [OrderBook.matchLoop] using hs
      | some pr =>
          have := matchStep_totalOrders_lt b pr.1 pr.2 (by rw [hs])
          omega
  | succ f ih =>
      cases hs : OrderBook.matchStep b with
      | none => simp [OrderBook.matchLoop, hs]
      | some pr =>
          obtain ⟨b', t⟩ := pr
          have hd := matchStep_totalOrders_lt b b' t hs
          rw [OrderBook.matchLoop, hs]
          exact ih b' (acc ++ [t]) (by omega)

/-- `OrderBook::match` always reaches its own exit condition: the fuel
`matchOrders` supplies is sufficient, so the fueled loop computes what the
unbounded C++ loop computes. -/
theorem matchOrders_fixpoint (b : OrderBook) :
    OrderBook.matchStep (OrderBook.matchOrders b).fst = none :=
  matchLoop_fixpoint _ _ _ le_rfl

end NanoBook

namespace NanoBook

theorem cleanupBid_asks (b : OrderBook) (idx : Nat) :
    (OrderBook.cleanupBid b idx).asks = b.asks := by
  unfold OrderBook.cleanupBid
  split
  · split
    · rfl
    · dsimp only
      split <;> rfl
  · rfl

theorem cleanupBid_pool (b : OrderBook) (idx : Nat) :
    (OrderBook.cleanupBid b idx).orderPool.pool = b.orderPool.pool := by
  unfold OrderBook.cleanupBid
  split
  · split
    · rfl
    · dsimp only
      split <;> rfl
  · rfl

theorem wfcore_cleanupAsk (b : OrderBook) (ap : Nat) (aL : LimitLevel) (restA : SideBook)
    (idx : Nat) (tl : List Nat) (hW : WFcore b)
    (ha : b.asks = (ap, aL) :: restA) (hq : aL.queue = idx :: tl) :
    WFcore (OrderBook.cleanupAsk b idx) := by
  obtain ⟨hbS, haS, hbE, haE, hQN, hFN, hFV⟩ := hW
  by_cases h0 : (b.orderPool.pool.getD idx default).quantity = 0
  case neg =>
    rw [cleanupAsk_not_fired b idx h0]
    exact ⟨hbS, haS, hbE, haE, hQN, hFN, hFV⟩
  case pos =>
  have hmemA : (ap, aL) ∈ b.asks := by rw [ha]; exact List.mem_cons_self _ _
  have hidxq : idx ∈ aL.queue := by rw [hq]; exact List.mem_cons_self _ _
  have hidxAll : idx ∈ OrderBook.allQueues b := by
    unfold OrderBook.allQueues
    refine List.mem_append_right _ ?_
    exact List.mem_flatten.mpr ⟨aL.queue, List.mem_map.mpr ⟨(ap, aL), hmemA, rfl⟩, hidxq⟩
  have hidxval : idx < b.orderPool.pool.length := ((haE _ hmemA).2.2 idx hidxq).1
  have hidxfree : idx ∉ b.orderPool.freeIndices := fun hmem => (hFV idx hmem).2 hidxAll
  have hperm : (OrderBook.allQueues b).Perm
      (aL.queue ++ OrderBook.allQueues ⟨b.bids, restA, b.orderMap, b.orderPool⟩) := by
    unfold OrderBook.allQueues
    rw [ha]
    dsimp only
    rw [List.map_cons, List.flatten_cons]
    exact List.perm_append_comm_assoc _ _ _
  have hQN' := hperm.nodup_iff.mp hQN
  rw [hq, List.cons_append, List.nodup_cons] at hQN'
  obtain ⟨hidxnot, htlZ⟩ := hQN'
  have hmemZ : ∀ i, i ∈ OrderBook.allQueues ⟨b.bids, restA, b.orderMap, b.orderPool⟩ →
      i ∈ OrderBook.allQueues b := by
    intro i hi
    exact hperm.symm.subset (List.mem_append_right _ hi)
  have hfrees : ∀ i ∈ b.orderPool.freeIndices ++ [idx],
      i < b.orderPool.pool.length ∧
        (i ∈ OrderBook.allQueues ⟨b.bids, restA, b.orderMap, b.orderPool⟩ → False) := by
    intro i hi
    rcases List.mem_append.mp hi with hi | hi
    · exact ⟨(hFV i hi).1, fun hc => (hFV i hi).2 (hmemZ i hc)⟩
    · rw [List.mem_singleton] at hi
      subst hi
      refine ⟨hidxval, fun hc => hidxnot ?_⟩
      exact List.mem_append_right _ hc
  by_cases htl : tl = []
  · subst htl
    rw [cleanupAsk_fired_drop b ap aL restA idx ha (by rw [hq]) h0]
    refine ⟨hbS, ?_, ?_, ?_, ?_, ?_, ?_⟩
    · rw [ha] at haS
      exact (List.pairwise_cons.mp haS).2
    · exact hbE
    · intro e he
      exact haE e (by rw [ha]; exact List.mem_cons_of_mem _ he)
    · exact htlZ
    · dsimp only [ObjectPool.deallocate]
      simp only [List.nodup_append, List.nodup_cons, List.nodup_nil]
      exact ⟨hFN, by simp, by simpa using hidxfree⟩
    · intro i hi
      exact ⟨(hfrees i hi).1, fun hc => (hfrees i hi).2 hc⟩
  · rw [cleanupAsk_fired_keep b ap aL restA idx tl ha hq htl h0]
    have hLq : (LimitLevel.remove b.orderPool.pool aL idx).queue = tl := by
      dsimp only [LimitLevel.remove]
      rw [hq, List.erase_cons_head]
    have hpermK : (OrderBook.allQueues ⟨b.bids,
        (ap, LimitLevel.remove b.orderPool.pool aL idx) :: restA,
        OrderMap.erase b.orderMap (b.orderPool.pool.getD idx default).id,
        ObjectPool.deallocate b.orderPool idx⟩).Perm
        (tl ++ OrderBook.allQueues ⟨b.bids, restA, b.orderMap, b.orderPool⟩) := by
      unfold OrderBook.allQueues
      dsimp only
      rw [List.map_cons, List.flatten_cons, hLq]
      have := List.perm_append_comm_assoc
        ((b.bids.map (fun e => e.snd.queue)).flatten) tl
        ((restA.map (fun e => e.snd.queue)).flatten)
      exact this
    refine ⟨hbS, ?_, ?_, ?_, ?_, ?_, ?_⟩
    · rw [ha] at haS
      rw [List.pairwise_cons] at haS ⊢
      exact ⟨fun y hy => haS.1 y hy, haS.2⟩
    · exact hbE
    · intro e he
      rcases List.mem_cons.mp he with he | he
      · subst he
        dsimp only
        refine ⟨?_, ?_, ?_⟩
        · exact (haE _ hmemA).1
        · rw [hLq]; exact htl
        · intro i hi
          rw [hLq] at hi
          exact (haE _ hmemA).2.2 i (by rw [hq]; exact List.mem_cons_of_mem _ hi)
      · exact haE e (by rw [ha]; exact List.mem_cons_of_mem _ he)
    · exact hpermK.nodup_iff.mpr htlZ
    · dsimp only [ObjectPool.deallocate]
      simp only [List.nodup_append, List.nodup_cons, List.nodup_nil]
      exact ⟨hFN, by simp, by simpa using hidxfree⟩
    · intro i hi
      refine ⟨(hfrees i hi).1, fun hc => ?_⟩
      rcases List.mem_append.mp (hpermK.subset hc) with hc' | hc'
      · rcases List.mem_append.mp hi with hi' | hi'
        · exact (hFV i hi').2 (hperm.symm.subset
            (List.mem_append_left _ (by rw [hq]; exact List.mem_cons_of_mem _ hc')))
        · rw [List.mem_singleton] at hi'
          subst hi'
          exact hidxnot (List.mem_append_left _ hc')
      · exact (hfrees i hi).2 hc'

end NanoBook

namespace NanoBook

theorem wfcore_cleanupBid (b : OrderBook) (bp : Nat) (bL : LimitLevel) (restB : SideBook)
    (idx : Nat) (tl : List Nat) (hW : WFcore b)
    (hb : b.bids = (bp, bL) :: restB) (hq : bL.queue = idx :: tl) :
    WFcore (OrderBook.cleanupBid b idx) := by
  obtain ⟨hbS, haS, hbE, haE, hQN, hFN, hFV⟩ := hW
  by_cases h0 : (b.orderPool.pool.getD idx default).quantity = 0
  case neg =>
    rw [cleanupBid_not_fired b idx h0]
    exact ⟨hbS, haS, hbE, haE, hQN, hFN, hFV⟩
  case pos =>
  have hmemB : (bp, bL) ∈ b.bids := by rw [hb]; exact List.mem_cons_self _ _
  have hidxq : idx ∈ bL.queue := by rw [hq]; exact List.mem_cons_self _ _
  have hidxAll : idx ∈ OrderBook.allQueues b := by
    unfold OrderBook.allQueues
    refine List.mem_append_left _ ?_
    exact List.mem_flatten.mpr ⟨bL.queue, List.mem_map.mpr ⟨(bp, bL), hmemB, rfl⟩, hidxq⟩
  have hidxval : idx < b.orderPool.pool.length := ((hbE _ hmemB).2.2 idx hidxq).1
  have hidxfree : idx ∉ b.orderPool.freeIndices := fun hmem => (hFV idx hmem).2 hidxAll
  have hperm : (OrderBook.allQueues b).Perm
      (bL.queue ++ OrderBook.allQueues ⟨restB, b.asks, b.orderMap, b.orderPool⟩) := by
    unfold OrderBook.allQueues
    rw [hb]
    dsimp only
    rw [List.map_cons, List.flatten_cons, List.append_assoc]
  have hQN' := hperm.nodup_iff.mp hQN
  rw [hq, List.cons_append, List.nodup_cons] at hQN'
  obtain ⟨hidxnot, htlZ⟩ := hQN'
  have hmemZ : ∀ i, i ∈ OrderBook.allQueues ⟨restB, b.asks, b.orderMap, b.orderPool⟩ →
      i ∈ OrderBook.allQueues b := by
    intro i hi
    exact hperm.symm.subset (List.mem_append_right _ hi)
  have hfrees : ∀ i ∈ b.orderPool.freeIndices ++ [idx],
      i < b.orderPool.pool.length ∧
        (i ∈ OrderBook.allQueues ⟨restB, b.asks, b.orderMap, b.orderPool⟩ → False) := by
    intro i hi
    rcases List.mem_append.mp hi with hi | hi
    · exact ⟨(hFV i hi).1, fun hc => (hFV i hi).2 (hmemZ i hc)⟩
    · rw [List.mem_singleton] at hi
      subst hi
      refine ⟨hidxval, fun hc => hidxnot ?_⟩
      exact List.mem_append_right _ hc
  by_cases htl : tl = []
  · subst htl
    rw [cleanupBid_fired_drop b bp bL restB idx hb (by rw [hq]) h0]
    refine ⟨?_, haS, ?_, ?_, ?_, ?_, ?_⟩
    · rw [hb] at hbS
      exact (List.pairwise_cons.mp hbS).2
    · intro e he
      exact hbE e (by rw [hb]; exact List.mem_cons_of_mem _ he)
    · exact haE
    · exact htlZ
    · dsimp only [ObjectPool.deallocate]
      simp only [List.nodup_append, List.nodup_cons, List.nodup_nil]
      exact ⟨hFN, by simp, by simpa using hidxfree⟩
    · intro i hi
      exact ⟨(hfrees i hi).1, fun hc => (hfrees i hi).2 hc⟩
  · rw [cleanupBid_fired_keep b bp bL restB idx tl hb hq htl h0]
    have hLq : (LimitLevel.remove b.orderPool.pool bL idx).queue = tl := by
      dsimp only [LimitLevel.remove]
      rw [hq, List.erase_cons_head]
    have hpermK : (OrderBook.allQueues ⟨(bp, LimitLevel.remove b.orderPool.pool bL idx) :: restB,
        b.asks,
        OrderMap.erase b.orderMap (b.orderPool.pool.getD idx default).id,
        ObjectPool.deallocate b.orderPool idx⟩).Perm
        (tl ++ OrderBook.allQueues ⟨restB, b.asks, b.orderMap, b.orderPool⟩) := by
      unfold OrderBook.allQueues
      dsimp only
      rw [List.map_cons, List.flatten_cons, hLq, List.append_assoc]
    refine ⟨?_, haS, ?_, ?_, ?_, ?_, ?_⟩
    · rw [hb] at hbS
      rw [List.pairwise_cons] at hbS ⊢
      exact ⟨fun y hy => hbS.1 y hy, hbS.2⟩
    · intro e he
      rcases List.mem_cons.mp he with he | he
      · subst he
        dsimp only
        refine ⟨?_, ?_, ?_⟩
        · exact (hbE _ hmemB).1
        · rw [hLq]; exact htl
        · intro i hi
          rw [hLq] at hi
          exact (hbE _ hmemB).2.2 i (by rw [hq]; exact List.mem_cons_of_mem _ hi)
      · exact hbE e (by rw [hb]; exact List.mem_cons_of_mem _ he)
    · exact haE
    · exact hpermK.nodup_iff.mpr htlZ
    · dsimp only [ObjectPool.deallocate]
      simp only [List.nodup_append, List.nodup_cons, List.nodup_nil]
      exact ⟨hFN, by simp, by simpa using hidxfree⟩
    · intro i hi
      refine ⟨(hfrees i hi).1, fun hc => ?_⟩
      rcases List.mem_append.mp (hpermK.subset hc) with hc' | hc'
      · rcases List.mem_append.mp hi with hi' | hi'
        · exact (hFV i hi').2 (hperm.symm.subset
            (List.mem_append_left _ (by rw [hq]; exact List.mem_cons_of_mem _ hc')))
        · rw [List.mem_singleton] at hi'
          subst hi'
          exact hidxnot (List.mem_append_left _ hc')
      · exact (hfrees i hi).2 hc'

end NanoBook

namespace NanoBook

theorem wfcore_fillPool (b : OrderBook) (bidIdx askIdx fill : Nat) (hW : WFcore b) :
    WFcore ⟨b.bids, b.asks, b.orderMap,
      ⟨fillPool b.orderPool.pool bidIdx askIdx fill, b.orderPool.freeIndices⟩⟩ := by
  obtain ⟨hbS, haS, hbE, haE, hQN, hFN, hFV⟩ := hW
  refine ⟨hbS, haS, ?_, ?_, hQN, hFN, ?_⟩
  · intro e he
    refine ⟨(hbE e he).1, (hbE e he).2.1, ?_⟩
    intro i hi
    constructor
    · rw [fillPool_length]
      exact ((hbE e he).2.2 i hi).1
    · rw [fillPool_price]
      exact ((hbE e he).2.2 i hi).2
  · intro e he
    refine ⟨(haE e he).1, (haE e he).2.1, ?_⟩
    intro i hi
    constructor
    · rw [fillPool_length]
      exact ((haE e he).2.2 i hi).1
    · rw [fillPool_price]
      exact ((haE e he).2.2 i hi).2
  · intro i hi
    refine ⟨?_, (hFV i hi).2⟩
    rw [fillPool_length]
    exact (hFV i hi).1

theorem wfcore_matchStep (b b' : OrderBook) (t : Trade) (hW : WFcore b)
    (h : OrderBook.matchStep b = some (b', t)) : WFcore b' := by
  obtain ⟨bp, bL, restB, ap, aL, restA, bidIdx, askIdx, hbb, haa, hlt, hbh, hah, ht, hb'⟩ :=
    matchStep_some_inv b b' t h
  obtain ⟨tlB, hqB⟩ := head_eq_cons _ _ hbh
  obtain ⟨tlA, hqA⟩ := head_eq_cons _ _ hah
  subst hb'
  have hWmid := wfcore_fillPool b bidIdx askIdx
    (min (b.orderPool.pool.getD bidIdx default).quantity
      (b.orderPool.pool.getD askIdx default).quantity) hW
  have hWB1 := wfcore_cleanupBid _ bp bL restB bidIdx tlB hWmid (by exact hbb) hqB
  have hasks : (OrderBook.cleanupBid ⟨b.bids, b.asks, b.orderMap,
      ⟨fillPool b.orderPool.pool bidIdx askIdx
        (min (b.orderPool.pool.getD bidIdx default).quantity
          (b.orderPool.pool.getD askIdx default).quantity),
       b.orderPool.freeIndices⟩⟩ bidIdx).asks = (ap, aL) :: restA := by
    rw [cleanupBid_asks]
    exact haa
  exact wfcore_cleanupAsk _ ap aL restA askIdx tlA hWB1 hasks hqA

end NanoBook

namespace NanoBook

/-! ## Insertion lemmas for the side books -/

theorem mem_insertBid (m : SideBook) (p : Nat) (e : Nat × LimitLevel)
    (h : e ∈ SideBook.insertBid m p) : e ∈ m ∨ e = (p, LimitLevel.create p) := by
  induction m with
  | nil =>
      unfold SideBook.insertBid at h
      rcases List.mem_singleton.mp h with h
      exact Or.inr h
  | cons e0 rest ih =>
      obtain ⟨q0, L0⟩ := e0
      unfold SideBook.insertBid at h
      by_cases h1 : q0 < p
      · rw [if_pos h1] at h
        rcases List.mem_cons.mp h with h | h
        · exact Or.inr h
        · exact Or.inl h
      · rw [if_neg h1] at h
        by_cases h2 : p = q0
        · rw [if_pos h2] at h
          exact Or.inl h
        · rw [if_neg h2] at h
          rcases List.mem_cons.mp h with h | h
          · exact Or.inl (by rw [h]; exact List.mem_cons_self _ _)
          · rcases ih h with h | h
            · exact Or.inl (List.mem_cons_of_mem _ h)
            · exact Or.inr h

theorem mem_insertAsk (m : SideBook) (p : Nat) (e : Nat × LimitLevel)
    (h : e ∈ SideBook.insertAsk m p) : e ∈ m ∨ e = (p, LimitLevel.create p) := by
  induction m with
  | nil =>
      unfold SideBook.insertAsk at h
      rcases List.mem_singleton.mp h with h
      exact Or.inr h
  | cons e0 rest ih =>
      obtain ⟨q0, L0⟩ := e0
      unfold SideBook.insertAsk at h
      by_cases h1 : p < q0
      · rw [if_pos h1] at h
        rcases List.mem_cons.mp h with h | h
        · exact Or.inr h
        · exact Or.inl h
      · rw [if_neg h1] at h
        by_cases h2 : p = q0
        · rw [if_pos h2] at h
          exact Or.inl h
        · rw [if_neg h2] at h
          rcases List.mem_cons.mp h with h | h
          · exact Or.inl (by rw [h]; exact List.mem_cons_self _ _)
          · rcases ih h with h | h
            · exact Or.inl (List.mem_cons_of_mem _ h)
            · exact Or.inr h

theorem insertBid_sorted (m : SideBook) (p : Nat)
    (hS : m.Pairwise (fun x y => y.fst < x.fst)) :
    (SideBook.insertBid m p).Pairwise (fun x y => y.fst < x.fst) := by
  induction m with
  | nil => simp [SideBook.insertBid]
  | cons e0 rest ih =>
      obtain ⟨q0, L0⟩ := e0
      rw [List.pairwise_cons] at hS
      unfold SideBook.insertBid
      by_cases h1 : q0 < p
      · rw [if_pos h1]
        rw [List.pairwise_cons]
        refine ⟨?_, List.pairwise_cons.mpr hS⟩
        intro y hy
        rcases List.mem_cons.mp hy with hy | hy
        · rw [hy]; exact h1
        · exact lt_trans (hS.1 y hy) h1
      · rw [if_neg h1]
        by_cases h2 : p = q0
        · rw [if_pos h2]
          exact List.pairwise_cons.mpr hS
        · rw [if_neg h2]
          rw [List.pairwise_cons]
          refine ⟨?_, ih hS.2⟩
          intro y hy
          rcases mem_insertBid rest p y hy with hy | hy
          · exact hS.1 y hy
          · rw [hy]
            dsimp only
            omega
  
theorem insertAsk_sorted (m : SideBook) (p : Nat)
    (hS : m.Pairwise (fun x y => x.fst < y.fst)) :
    (SideBook.insertAsk m p).Pairwise (fun x y => x.fst < y.fst) := by
  induction m with
  | nil => simp [SideBook.insertAsk]
  | cons e0 rest ih =>
      obtain ⟨q0, L0⟩ := e0
      rw [List.pairwise_cons] at hS
      unfold SideBook.insertAsk
      by_cases h1 : p < q0
      · rw [if_pos h1]
        rw [List.pairwise_cons]
        refine ⟨?_, List.pairwise_cons.mpr hS⟩
        intro y hy
        rcases List.mem_cons.mp hy with hy | hy
        · rw [hy]; exact h1
        · exact lt_trans h1 (hS.1 y hy)
      · rw [if_neg h1]
        by_cases h2 : p = q0
        · rw [if_pos h2]
          exact List.pairwise_cons.mpr hS
        · rw [if_neg h2]
          rw [List.pairwise_cons]
          refine ⟨?_, ih hS.2⟩
          intro y hy
          rcases mem_insertAsk rest p y hy with hy | hy
          · exact hS.1 y hy
          · rw [hy]
            dsimp only
            omega

theorem updateAt_pairwise (m : SideBook) (p : Nat) (f : LimitLevel → LimitLevel)
    (R : Nat → Nat → Prop) (hS : m.Pairwise (fun x y => R x.fst y.fst)) :
    (SideBook.updateAt m p f).Pairwise (fun x y => R x.fst y.fst) := by
  unfold SideBook.updateAt
  rw [List.pairwise_map]
  refine hS.imp_of_mem ?_
  intro a b _ _ hr
  by_cases ha : a.fst = p <;> by_cases hb : b.fst = p <;>
    simp [ha, hb] <;> simpa [ha, hb] using hr

theorem updateAt_not_mem (m : SideBook) (p : Nat) (f : LimitLevel → LimitLevel)
    (h : ∀ e ∈ m, e.fst ≠ p) : SideBook.updateAt m p f = m := by
  induction m with
  | nil => rfl
  | cons e rest ih =>
      unfold SideBook.updateAt
      rw [List.map_cons, if_neg (h e (List.mem_cons_self _ _))]
      have := ih (fun e' he' => h e' (List.mem_cons_of_mem _ he'))
      unfold SideBook.updateAt at this
      rw [this]

end NanoBook

namespace NanoBook

theorem queues_perm_insertBid (m : SideBook) (p idx : Nat) (g : LimitLevel → LimitLevel)
    (hg : ∀ L, (g L).queue = L.queue ++ [idx])
    (hS : m.Pairwise (fun x y => y.fst < x.fst)) :
    ((((SideBook.insertBid m p).updateAt p g).map (fun e => e.snd.queue)).flatten).Perm
      (idx :: (m.map (fun e => e.snd.queue)).flatten) := by
  induction m with
  | nil =>
      simp [SideBook.insertBid, SideBook.updateAt, hg, LimitLevel.create]
  | cons e0 rest ih =>
      obtain ⟨q0, L0⟩ := e0
      rw [List.pairwise_cons] at hS
      unfold SideBook.insertBid
      by_cases h1 : q0 < p
      · rw [if_pos h1]
        have hothers : ∀ e ∈ (q0, L0) :: rest, e.fst ≠ p := by
          intro e he
          rcases List.mem_cons.mp he with he | he
          · rw [he]; dsimp only; omega
          · have := hS.1 e he; omega
        unfold SideBook.updateAt
        rw [List.map_cons, if_pos rfl]
        have htail := updateAt_not_mem ((q0, L0) :: rest) p g hothers
        unfold SideBook.updateAt at htail
        rw [htail]
        rw [List.map_cons, List.flatten_cons, hg]
        simp [LimitLevel.create]
      · rw [if_neg h1]
        by_cases h2 : p = q0
        · rw [if_pos h2]
          have hothers : ∀ e ∈ rest, e.fst ≠ p := by
            intro e he
            have := hS.1 e he
            omega
          unfold SideBook.updateAt
          rw [List.map_cons, if_pos (show (q0, L0).fst = p from h2.symm)]
          have htail := updateAt_not_mem rest p g hothers
          unfold SideBook.updateAt at htail
          rw [htail]
          simp only [List.map_cons, List.flatten_cons, hg]
          exact (List.perm_append_comm.append_right _)
        · rw [if_neg h2]
          unfold SideBook.updateAt
          rw [List.map_cons, if_neg (show ¬ (q0, L0).fst = p from by dsimp only; omega)]
          unfold SideBook.updateAt at ih
          simp only [List.map_cons, List.flatten_cons]
          refine (List.Perm.append_left _ (ih hS.2)).trans ?_
          exact List.perm_middle

theorem queues_perm_insertAsk (m : SideBook) (p idx : Nat) (g : LimitLevel → LimitLevel)
    (hg : ∀ L, (g L).queue = L.queue ++ [idx])
    (hS : m.Pairwise (fun x y => x.fst < y.fst)) :
    ((((SideBook.insertAsk m p).updateAt p g).map (fun e => e.snd.queue)).flatten).Perm
      (idx :: (m.map (fun e => e.snd.queue)).flatten) := by
  induction m with
  | nil =>
      simp [SideBook.insertAsk, SideBook.updateAt, hg, LimitLevel.create]
  | cons e0 rest ih =>
      obtain ⟨q0, L0⟩ := e0
      rw [List.pairwise_cons] at hS
      unfold SideBook.insertAsk
      by_cases h1 : p < q0
      · rw [if_pos h1]
        have hothers : ∀ e ∈ (q0, L0) :: rest, e.fst ≠ p := by
          intro e he
          rcases List.mem_cons.mp he with he | he
          · rw [he]; dsimp only; omega
          · have := hS.1 e he; omega
        unfold SideBook.updateAt
        rw [List.map_cons, if_pos rfl]
        have htail := updateAt_not_mem ((q0, L0) :: rest) p g hothers
        unfold SideBook.updateAt at htail
        rw [htail]
        rw [List.map_cons, List.flatten_cons, hg]
        simp [LimitLevel.create]
      · rw [if_neg h1]
        by_cases h2 : p = q0
        · rw [if_pos h2]
          have hothers : ∀ e ∈ rest, e.fst ≠ p := by
            intro e he
            have := hS.1 e he
            omega
          unfold SideBook.updateAt
          rw [List.map_cons, if_pos (show (q0, L0).fst = p from h2.symm)]
          have htail := updateAt_not_mem rest p g hothers
          unfold SideBook.updateAt at htail
          rw [htail]
          simp only [List.map_cons, List.flatten_cons, hg]
          exact (List.perm_append_comm.append_right _)
        · rw [if_neg h2]
          unfold SideBook.updateAt
          rw [List.map_cons, if_neg (show ¬ (q0, L0).fst = p from by dsimp only; omega)]
          unfold SideBook.updateAt at ih
          simp only [List.map_cons, List.flatten_cons]
          refine (List.Perm.append_left _ (ih hS.2)).trans ?_
          exact List.perm_middle

end NanoBook

namespace NanoBook

theorem wfcore_insert_buy (b : OrderBook) (id p q : Nat) (f : List Nat) (idx : Nat)
    (hW : WFcore b) (hfi : b.orderPool.freeIndices = f ++ [idx]) :
    WFcore ⟨(SideBook.insertBid b.bids p).updateAt p
        (fun L => LimitLevel.append (b.orderPool.pool.set idx ⟨id, p, q, Side.Buy⟩) L idx),
      b.asks, OrderMap.insert b.orderMap id idx,
      ⟨b.orderPool.pool.set idx ⟨id, p, q, Side.Buy⟩, f⟩⟩ := by
  obtain ⟨hbS, haS, hbE, haE, hQN, hFN, hFV⟩ := hW
  have hidxfree : idx ∈ b.orderPool.freeIndices := by rw [hfi]; simp
  have hidxval : idx < b.orderPool.pool.length := (hFV idx hidxfree).1
  have hidxnotall : idx ∉ OrderBook.allQueues b := (hFV idx hidxfree).2
  have hplen : (b.orderPool.pool.set idx (⟨id, p, q, Side.Buy⟩ : Order)).length =
      b.orderPool.pool.length := List.length_set _ _ _
  have hpother : ∀ j, j ≠ idx →
      (b.orderPool.pool.set idx (⟨id, p, q, Side.Buy⟩ : Order)).getD j default =
        b.orderPool.pool.getD j default :=
    fun j hj => getD_set_ne _ _ _ (Ne.symm hj)
  have hpidx : (b.orderPool.pool.set idx (⟨id, p, q, Side.Buy⟩ : Order)).getD idx default =
      ⟨id, p, q, Side.Buy⟩ := getD_set_self _ _ _ hidxval
  have hg : ∀ L, (LimitLevel.append (b.orderPool.pool.set idx ⟨id, p, q, Side.Buy⟩)
      L idx).queue = L.queue ++ [idx] := fun L => rfl
  have hne_idx : ∀ i, i ∈ OrderBook.allQueues b → i ≠ idx :=
    fun i hi hh => hidxnotall (hh ▸ hi)
  have hmem_all_bid : ∀ e ∈ b.bids, ∀ i ∈ e.snd.queue, i ∈ OrderBook.allQueues b := by
    intro e he i hi
    unfold OrderBook.allQueues
    exact List.mem_append_left _
      (List.mem_flatten.mpr ⟨e.snd.queue, List.mem_map.mpr ⟨e, he, rfl⟩, hi⟩)
  have hmem_all_ask : ∀ e ∈ b.asks, ∀ i ∈ e.snd.queue, i ∈ OrderBook.allQueues b := by
    intro e he i hi
    unfold OrderBook.allQueues
    exact List.mem_append_right _
      (List.mem_flatten.mpr ⟨e.snd.queue, List.mem_map.mpr ⟨e, he, rfl⟩, hi⟩)
  have hperm := queues_perm_insertBid b.bids p idx _ hg hbS
  have hpermAll : (OrderBook.allQueues ⟨(SideBook.insertBid b.bids p).updateAt p
      (fun L => LimitLevel.append (b.orderPool.pool.set idx ⟨id, p, q, Side.Buy⟩) L idx),
      b.asks, OrderMap.insert b.orderMap id idx,
      ⟨b.orderPool.pool.set idx ⟨id, p, q, Side.Buy⟩, f⟩⟩).Perm
      (idx :: OrderBook.allQueues b) := by
    unfold OrderBook.allQueues
    exact hperm.append_right _
  have hdisj : List.Disjoint f [idx] := by
    have hnd := hFN
    rw [hfi] at hnd
    exact List.disjoint_of_nodup_append hnd
  refine ⟨?_, haS, ?_, ?_, ?_, ?_, ?_⟩
  · exact updateAt_pairwise (SideBook.insertBid b.bids p) p
      (fun L => LimitLevel.append (b.orderPool.pool.set idx ⟨id, p, q, Side.Buy⟩) L idx)
      (fun a c => c < a) (insertBid_sorted _ _ hbS)
  · intro e' he'
    unfold SideBook.updateAt at he'
    rcases List.mem_map.mp he' with ⟨e, he, he'eq⟩
    by_cases hkey : e.fst = p
    · rw [if_pos hkey] at he'eq
      subst he'eq
      dsimp only
      rcases mem_insertBid _ _ _ he with hem | hec
      · refine ⟨(hbE e hem).1, by simp [LimitLevel.append], ?_⟩
        intro i hi
        rw [hg] at hi
        rcases List.mem_append.mp hi with hi | hi
        · have hne := hne_idx i (hmem_all_bid e hem i hi)
          refine ⟨by rw [hplen]; exact ((hbE e hem).2.2 i hi).1, ?_⟩
          rw [hpother i hne]
          exact ((hbE e hem).2.2 i hi).2
        · rw [List.mem_singleton] at hi
          subst hi
          refine ⟨by rw [hplen]; exact hidxval, ?_⟩
          rw [hpidx]
          exact hkey.symm
      · subst hec
        dsimp only
        refine ⟨rfl, by simp [LimitLevel.append, LimitLevel.create], ?_⟩
        intro i hi
        rw [hg] at hi
        dsimp only [LimitLevel.create] at hi
        rw [List.nil_append, List.mem_singleton] at hi
        subst hi
        refine ⟨by rw [hplen]; exact hidxval, ?_⟩
        rw [hpidx]
    · rw [if_neg hkey] at he'eq
      subst he'eq
      rcases mem_insertBid _ _ _ he with hem | hec
      · refine ⟨(hbE e hem).1, (hbE e hem).2.1, ?_⟩
        intro i hi
        have hne := hne_idx i (hmem_all_bid e hem i hi)
        refine ⟨by rw [hplen]; exact ((hbE e hem).2.2 i hi).1, ?_⟩
        rw [hpother i hne]
        exact ((hbE e hem).2.2 i hi).2
      · exact absurd (by rw [hec]) hkey
  · intro e he
    refine ⟨(haE e he).1, (haE e he).2.1, ?_⟩
    intro i hi
    have hne := hne_idx i (hmem_all_ask e he i hi)
    refine ⟨by rw [hplen]; exact ((haE e he).2.2 i hi).1, ?_⟩
    rw [hpother i hne]
    exact ((haE e he).2.2 i hi).2
  · exact hpermAll.nodup_iff.mpr (by rw [List.nodup_cons]; exact ⟨hidxnotall, hQN⟩)
  · have := hFN
    rw [hfi] at this
    exact this.of_append_left
  · intro i hi
    have hif : i ∈ b.orderPool.freeIndices := by rw [hfi]; exact List.mem_append_left _ hi
    have hii : i ≠ idx := fun hh => hdisj hi (by rw [hh]; simp)
    refine ⟨by rw [hplen]; exact (hFV i hif).1, ?_⟩
    intro hc
    rcases List.mem_cons.mp (hpermAll.subset hc) with h | h
    · exact hii h
    · exact (hFV i hif).2 h

end NanoBook

namespace NanoBook

theorem wfcore_insert_sell (b : OrderBook) (id p q : Nat) (f : List Nat) (idx : Nat)
    (hW : WFcore b) (hfi : b.orderPool.freeIndices = f ++ [idx]) :
    WFcore ⟨b.bids,
      (SideBook.insertAsk b.asks p).updateAt p
        (fun L => LimitLevel.append (b.orderPool.pool.set idx ⟨id, p, q, Side.Sell⟩) L idx),
      OrderMap.insert b.orderMap id idx,
      ⟨b.orderPool.pool.set idx ⟨id, p, q, Side.Sell⟩, f⟩⟩ := by
  obtain ⟨hbS, haS, hbE, haE, hQN, hFN, hFV⟩ := hW
  have hidxfree : idx ∈ b.orderPool.freeIndices := by rw [hfi]; simp
  have hidxval : idx < b.orderPool.pool.length := (hFV idx hidxfree).1
  have hidxnotall : idx ∉ OrderBook.allQueues b := (hFV idx hidxfree).2
  have hplen : (b.orderPool.pool.set idx (⟨id, p, q, Side.Sell⟩ : Order)).length =
      b.orderPool.pool.length := List.length_set _ _ _
  have hpother : ∀ j, j ≠ idx →
      (b.orderPool.pool.set idx (⟨id, p, q, Side.Sell⟩ : Order)).getD j default =
        b.orderPool.pool.getD j default :=
    fun j hj => getD_set_ne _ _ _ (Ne.symm hj)
  have hpidx : (b.orderPool.pool.set idx (⟨id, p, q, Side.Sell⟩ : Order)).getD idx default =
      ⟨id, p, q, Side.Sell⟩ := getD_set_self _ _ _ hidxval
  have hg : ∀ L, (LimitLevel.append (b.orderPool.pool.set idx ⟨id, p, q, Side.Sell⟩)
      L idx).queue = L.queue ++ [idx] := fun L => rfl
  have hne_idx : ∀ i, i ∈ OrderBook.allQueues b → i ≠ idx :=
    fun i hi hh => hidxnotall (hh ▸ hi)
  have hmem_all_bid : ∀ e ∈ b.bids, ∀ i ∈ e.snd.queue, i ∈ OrderBook.allQueues b := by
    intro e he i hi
    unfold OrderBook.allQueues
    exact List.mem_append_left _
      (List.mem_flatten.mpr ⟨e.snd.queue, List.mem_map.mpr ⟨e, he, rfl⟩, hi⟩)
  have hmem_all_ask : ∀ e ∈ b.asks, ∀ i ∈ e.snd.queue, i ∈ OrderBook.allQueues b := by
    intro e he i hi
    unfold OrderBook.allQueues
    exact List.mem_append_right _
      (List.mem_flatten.mpr ⟨e.snd.queue, List.mem_map.mpr ⟨e, he, rfl⟩, hi⟩)
  have hperm := queues_perm_insertAsk b.asks p idx _ hg haS
  have hpermAll : (OrderBook.allQueues ⟨b.bids,
      (SideBook.insertAsk b.asks p).updateAt p
        (fun L => LimitLevel.append (b.orderPool.pool.set idx ⟨id, p, q, Side.Sell⟩) L idx),
      OrderMap.insert b.orderMap id idx,
      ⟨b.orderPool.pool.set idx ⟨id, p, q, Side.Sell⟩, f⟩⟩).Perm
      (idx :: OrderBook.allQueues b) := by
    unfold OrderBook.allQueues
    dsimp only
    refine (List.Perm.append_left _ hperm).trans ?_
    exact List.perm_middle
  have hdisj : List.Disjoint f [idx] := by
    have hnd := hFN
    rw [hfi] at hnd
    exact List.disjoint_of_nodup_append hnd
  refine ⟨hbS, ?_, ?_, ?_, ?_, ?_, ?_⟩
  · exact updateAt_pairwise (SideBook.insertAsk b.asks p) p
      (fun L => LimitLevel.append (b.orderPool.pool.set idx ⟨id, p, q, Side.Sell⟩) L idx)
      (fun a c => a < c) (insertAsk_sorted _ _ haS)
  · intro e he
    refine ⟨(hbE e he).1, (hbE e he).2.1, ?_⟩
    intro i hi
    have hne := hne_idx i (hmem_all_bid e he i hi)
    refine ⟨by rw [hplen]; exact ((hbE e he).2.2 i hi).1, ?_⟩
    rw [hpother i hne]
    exact ((hbE e he).2.2 i hi).2
  · intro e' he'
    unfold SideBook.updateAt at he'
    rcases List.mem_map.mp he' with ⟨e, he, he'eq⟩
    by_cases hkey : e.fst = p
    · rw [if_pos hkey] at he'eq
      subst he'eq
      dsimp only
      rcases mem_insertAsk _ _ _ he with hem | hec
      · refine ⟨(haE e hem).1, by simp [LimitLevel.append], ?_⟩
        intro i hi
        rw [hg] at hi
        rcases List.mem_append.mp hi with hi | hi
        · have hne := hne_idx i (hmem_all_ask e hem i hi)
          refine ⟨by rw [hplen]; exact ((haE e hem).2.2 i hi).1, ?_⟩
          rw [hpother i hne]
          exact ((haE e hem).2.2 i hi).2
        · rw [List.mem_singleton] at hi
          subst hi
          refine ⟨by rw [hplen]; exact hidxval, ?_⟩
          rw [hpidx]
          exact hkey.symm
      · subst hec
        dsimp only
        refine ⟨rfl, by simp [LimitLevel.append, LimitLevel.create], ?_⟩
        intro i hi
        rw [hg] at hi
        dsimp only [LimitLevel.create] at hi
        rw [List.nil_append, List.mem_singleton] at hi
        subst hi
        refine ⟨by rw [hplen]; exact hidxval, ?_⟩
        rw [hpidx]
    · rw [if_neg hkey] at he'eq
      subst he'eq
      rcases mem_insertAsk _ _ _ he with hem | hec
      · refine ⟨(haE e hem).1, (haE e hem).2.1, ?_⟩
        intro i hi
        have hne := hne_idx i (hmem_all_ask e hem i hi)
        refine ⟨by rw [hplen]; exact ((haE e hem).2.2 i hi).1, ?_⟩
        rw [hpother i hne]
        exact ((haE e hem).2.2 i hi).2
      · exact absurd (by rw [hec]) hkey
  · exact hpermAll.nodup_iff.mpr (by rw [List.nodup_cons]; exact ⟨hidxnotall, hQN⟩)
  · have := hFN
    rw [hfi] at this
    exact this.of_append_left
  · intro i hi
    have hif : i ∈ b.orderPool.freeIndices := by rw [hfi]; exact List.mem_append_left _ hi
    have hii : i ≠ idx := fun hh => hdisj hi (by rw [hh]; simp)
    refine ⟨by rw [hplen]; exact (hFV i hif).1, ?_⟩
    intro hc
    rcases List.mem_cons.mp (hpermAll.subset hc) with h | h
    · exact hii h
    · exact (hFV i hif).2 h

end NanoBook

namespace NanoBook

theorem getLast_decomp (l : List Nat) (j : Nat) (h : l.getLast? = some j) :
    l = l.dropLast ++ [j] := by
  have hne : l ≠ [] := by intro hh; rw [hh] at h; simp at h
  have h2 := List.dropLast_append_getLast hne
  rw [List.getLast?_eq_getLast l hne] at h
  rw [Option.some_inj] at h
  rw [h] at h2
  exact h2.symm

theorem matchLoop_wf (fuel : Nat) (b : OrderBook) (acc : List Trade) (hW : WFcore b) :
    WFcore (OrderBook.matchLoop fuel b acc).fst := by
  induction fuel generalizing b acc with
  | zero => exact hW
  | succ f ih =>
      cases hs : OrderBook.matchStep b with
      | none =>
          rw [OrderBook.matchLoop, hs]
          exact hW
      | some pr =>
          obtain ⟨b', t⟩ := pr
          rw [OrderBook.matchLoop, hs]
          exact ih b' (acc ++ [t]) (wfcore_matchStep b b' t hW hs)

/-- C7: the spread is never inverted after `submit` returns.  On any
well-formed book (representation invariant plus uncrossed spread — both
hold for the empty book and are preserved by the engine), after
`addOrder` returns, whenever both side books are non-empty the best
(highest, first) bid price is strictly below the best (lowest, first)
ask price. -/
theorem submit_never_inverts_spread (b : OrderBook) (id p q : Nat) (s : Side)
    (hW : WF b) :
    ∀ e₁ ∈ ((OrderBook.addOrder b id p q s).fst).bids.head?,
      ∀ e₂ ∈ ((OrderBook.addOrder b id p q s).fst).asks.head?, e₁.fst < e₂.fst := by
  obtain ⟨hWc, hUn⟩ := hW
  by_cases hdup : (OrderMap.lookup b.orderMap id).isSome
  · have hstop : OrderBook.addOrder b id p q s = (b, []) := by
      unfold OrderBook.addOrder
      rw [if_pos hdup]
    rw [hstop]
    exact hUn
  · have hid : OrderMap.lookup b.orderMap id = none := by
      rcases hcase : OrderMap.lookup b.orderMap id with _ | j
      · rfl
      · rw [hcase] at hdup; simp at hdup
    cases hgl : b.orderPool.freeIndices.getLast? with
    | none =>
        have hstop : OrderBook.addOrder b id p q s = (b, []) := by
          unfold OrderBook.addOrder
          rw [hid]
          rw [if_neg (by decide)]
          unfold ObjectPool.allocate
          rw [hgl]
        rw [hstop]
        exact hUn
    | some idx =>
        have hfi : b.orderPool.freeIndices = b.orderPool.freeIndices.dropLast ++ [idx] :=
          getLast_decomp _ _ hgl
        cases s with
        | Buy =>
            rw [addOrder_fresh_buy b id p q _ idx hid hfi]
            have hWc2 := wfcore_insert_buy b id p q _ idx hWc hfi
            have hWc' : WFcore (OrderBook.matchOrders ⟨(SideBook.insertBid b.bids p).updateAt p
                (fun L => LimitLevel.append (b.orderPool.pool.set idx ⟨id, p, q, Side.Buy⟩) L idx),
                b.asks, OrderMap.insert b.orderMap id idx,
                ⟨b.orderPool.pool.set idx ⟨id, p, q, Side.Buy⟩,
                 b.orderPool.freeIndices.dropLast⟩⟩).fst :=
              matchLoop_wf _ _ _ hWc2
            exact uncrossed_of_matchStep_none _ hWc' (matchOrders_fixpoint _)
        | Sell =>
            rw [addOrder_fresh_sell b id p q _ idx hid hfi]
            have hWc2 := wfcore_insert_sell b id p q _ idx hWc hfi
            have hWc' : WFcore (OrderBook.matchOrders ⟨b.bids,
                (SideBook.insertAsk b.asks p).updateAt p
                  (fun L => LimitLevel.append (b.orderPool.pool.set idx ⟨id, p, q, Side.Sell⟩) L idx),
                OrderMap.insert b.orderMap id idx,
                ⟨b.orderPool.pool.set idx ⟨id, p, q, Side.Sell⟩,
                 b.orderPool.freeIndices.dropLast⟩⟩).fst :=
              matchLoop_wf _ _ _ hWc2
            exact uncrossed_of_matchStep_none _ hWc' (matchOrders_fixpoint _)

end NanoBook

namespace NanoBook

theorem submit_never_inverts_spread_witness :
    WF ⟨[], [], [], ⟨[default, default], [0, 1]⟩⟩ ∧
    (∀ e₁ ∈ ((OrderBook.addOrder ⟨[], [], [], ⟨[default, default], [0, 1]⟩⟩
        1 100 10 Side.Buy).fst).bids.head?,
      ∀ e₂ ∈ ((OrderBook.addOrder ⟨[], [], [], ⟨[default, default], [0, 1]⟩⟩
        1 100 10 Side.Buy).fst).asks.head?, e₁.fst < e₂.fst) :=
  ⟨⟨⟨by decide, by decide, by decide, by decide, by decide, by decide, by decide⟩,
    by intro e₁ he₁ e₂ he₂; simp at he₁⟩,
   submit_never_inverts_spread ⟨[], [], [], ⟨[default, default], [0, 1]⟩⟩ 1 100 10 Side.Buy
     ⟨⟨by decide, by decide, by decide, by decide, by decide, by decide, by decide⟩,
      by intro e₁ he₁ e₂ he₂; simp at he₁⟩⟩

end NanoBook

namespace NanoBook

/-- C3: every trade the cross loop emits executes at the best (lowest) ask
level's price — which, on a well-formed book, is also the price of the
resting ask-side order being filled.  The conjunct `WFcore b'` shows the
invariant survives the step, so the statement covers every iteration of
the loop, not just the first. -/
theorem trade_executes_at_best_ask (b b' : OrderBook) (t : Trade) (hW : WFcore b)
    (hs : OrderBook.matchStep b = some (b', t)) :
    (∃ ap aL restA, b.asks = (ap, aL) :: restA ∧ t.price = ap ∧ t.price = aL.price ∧
      ∃ askIdx ∈ aL.queue.head?,
        (b.orderPool.pool.getD askIdx default).price = t.price) ∧
    WFcore b' := by
  obtain ⟨bp, bL, restB, ap, aL, restA, bidIdx, askIdx, hbb, haa, hlt, hbh, hah, ht, hb'⟩ :=
    matchStep_some_inv b b' t hs
  have hmemA : (ap, aL) ∈ b.asks := by rw [haa]; exact List.mem_cons_self _ _
  have haKey : aL.price = ap := (hW.2.2.2.1 _ hmemA).1
  have hidxq : askIdx ∈ aL.queue := by
    obtain ⟨tl, htl⟩ := head_eq_cons _ _ hah
    rw [htl]
    exact List.mem_cons_self _ _
  have hprice : (b.orderPool.pool.getD askIdx default).price = ap :=
    ((hW.2.2.2.1 _ hmemA).2.2 askIdx hidxq).2
  have htp : t.price = aL.price := by rw [ht]
  refine ⟨⟨ap, aL, restA, haa, ?_, htp, askIdx, hah, ?_⟩,
    wfcore_matchStep b b' t hW hs⟩
  · rw [htp, haKey]
  · rw [hprice, htp, haKey]

end NanoBook

namespace NanoBook

theorem trade_executes_at_best_ask_witness :
    (WFcore ⟨[(105, ⟨105, 50, [1]⟩)], [(105, ⟨105, 100, [0]⟩)], [],
        ⟨[⟨1, 105, 100, Side.Sell⟩, ⟨2, 105, 50, Side.Buy⟩], []⟩⟩ ∧
      OrderBook.matchStep ⟨[(105, ⟨105, 50, [1]⟩)], [(105, ⟨105, 100, [0]⟩)], [],
        ⟨[⟨1, 105, 100, Side.Sell⟩, ⟨2, 105, 50, Side.Buy⟩], []⟩⟩ =
        some (⟨[], [(105, ⟨105, 100, [0]⟩)], [],
          ⟨[⟨1, 105, 50, Side.Sell⟩, ⟨2, 105, 0, Side.Buy⟩], [1]⟩⟩, ⟨50, 105, 2, 1⟩)) ∧
    ((∃ ap aL restA, ([(105, (⟨105, 100, [0]⟩ : LimitLevel))] : SideBook) = (ap, aL) :: restA ∧
        (⟨50, 105, 2, 1⟩ : Trade).price = ap ∧ (⟨50, 105, 2, 1⟩ : Trade).price = aL.price ∧
        ∃ askIdx ∈ aL.queue.head?,
          (([⟨1, 105, 100, Side.Sell⟩, ⟨2, 105, 50, Side.Buy⟩] : List Order).getD askIdx
            default).price = (⟨50, 105, 2, 1⟩ : Trade).price) ∧
      WFcore ⟨[], [(105, ⟨105, 100, [0]⟩)], [],
        ⟨[⟨1, 105, 50, Side.Sell⟩, ⟨2, 105, 0, Side.Buy⟩], [1]⟩⟩) :=
  ⟨⟨⟨by decide, by decide, by decide, by decide, by decide, by decide, by decide⟩, by decide⟩,
   trade_executes_at_best_ask
     ⟨[(105, ⟨105, 50, [1]⟩)], [(105, ⟨105, 100, [0]⟩)], [],
       ⟨[⟨1, 105, 100, Side.Sell⟩, ⟨2, 105, 50, Side.Buy⟩], []⟩⟩
     ⟨[], [(105, ⟨105, 100, [0]⟩)], [],
       ⟨[⟨1, 105, 50, Side.Sell⟩, ⟨2, 105, 0, Side.Buy⟩], [1]⟩⟩
     ⟨50, 105, 2, 1⟩
     ⟨by decide, by decide, by decide, by decide, by decide, by decide, by decide⟩
     (by decide)⟩

end NanoBook

namespace NanoBook

/-! ## Ring buffer lemmas -/

theorem mod2 (a c : Nat) (_hc : 0 < c) (h : a < 2 * c) :
    a % c = if a < c then a else a - c := by
  by_cases h1 : a < c
  · rw [if_pos h1, Nat.mod_eq_of_lt h1]
  · rw [if_neg h1]
    have h2 : a - c < c := by omega
    have h3 : a % c = (a - c) % c := by
      conv_lhs => rw [show a = (a - c) + c by omega]
      rw [Nat.add_mod_right]
    rw [h3, Nat.mod_eq_of_lt h2]

theorem count_eq (N : Nat) {T : Type} (q : LockFreeQueue T) (h : RBInv N q) :
    LockFreeQueue.count q =
      if q.tail < q.head then N + 1 + q.tail - q.head else q.tail - q.head := by
  obtain ⟨hc, hl, hh, ht⟩ := h
  unfold LockFreeQueue.count
  rw [hc, mod2 _ _ (by omega) (by omega)]
  split <;> split <;> omega

theorem toList_length {T : Type} [Inhabited T] (q : LockFreeQueue T) :
    (LockFreeQueue.toList q).length = LockFreeQueue.count q := by
  unfold LockFreeQueue.toList
  rw [List.length_map, List.length_range]

theorem create_inv (T : Type) [Inhabited T] (N : Nat) :
    RBInv N (LockFreeQueue.create T N) :=
  ⟨rfl, List.length_replicate _ _, Nat.succ_pos _, Nat.succ_pos _⟩

theorem create_toList (T : Type) [Inhabited T] (N : Nat) :
    LockFreeQueue.toList (LockFreeQueue.create T N) = [] := by
  unfold LockFreeQueue.toList LockFreeQueue.count LockFreeQueue.create
  simp

end NanoBook

namespace NanoBook

theorem push_false_iff {T : Type} (N : Nat) (q : LockFreeQueue T) (x : T) (h : RBInv N q) :
    (LockFreeQueue.push q x).snd = false ↔ LockFreeQueue.count q = N := by
  obtain ⟨hc, hl, hh, ht⟩ := h
  unfold LockFreeQueue.push
  rw [count_eq N q ⟨hc, hl, hh, ht⟩, hc]
  dsimp only
  rw [mod2 _ _ (by omega) (by omega)]
  by_cases hfull : (if q.tail + 1 < N + 1 then q.tail + 1 else q.tail + 1 - (N + 1)) = q.head
  · rw [if_pos hfull]
    simp only [true_iff]
    split at hfull <;> split <;> omega
  · rw [if_neg hfull]
    constructor
    · intro hcon
      exact absurd hcon (by simp)
    · intro hcnt
      exfalso
      apply hfull
      split at hcnt <;> split <;> omega

theorem push_false_state {T : Type} (q : LockFreeQueue T) (x : T)
    (h : (LockFreeQueue.push q x).snd = false) : (LockFreeQueue.push q x).fst = q := by
  unfold LockFreeQueue.push at h ⊢
  by_cases hfull : (q.tail + 1) % q.capacity = q.head
  · rw [if_pos hfull]
  · rw [if_neg hfull] at h
    simp at h

theorem pop_none_iff {T : Type} [Inhabited T] (N : Nat) (q : LockFreeQueue T)
    (h : RBInv N q) :
    (LockFreeQueue.pop q).snd = none ↔ LockFreeQueue.count q = 0 := by
  obtain ⟨hc, hl, hh, ht⟩ := h
  unfold LockFreeQueue.pop
  rw [count_eq N q ⟨hc, hl, hh, ht⟩]
  dsimp only
  by_cases hemp : q.head = q.tail
  · rw [if_pos hemp]
    simp only [true_iff]
    split <;> omega
  · rw [if_neg hemp]
    constructor
    · intro hcon
      exact absurd hcon (by simp)
    · intro hcnt
      exfalso
      apply hemp
      split at hcnt <;> omega

theorem pop_none_state {T : Type} [Inhabited T] (q : LockFreeQueue T)
    (h : (LockFreeQueue.pop q).snd = none) : (LockFreeQueue.pop q).fst = q := by
  unfold LockFreeQueue.pop at h ⊢
  by_cases hemp : q.head = q.tail
  · rw [if_pos hemp]
  · rw [if_neg hemp] at h
    simp at h

end NanoBook

namespace NanoBook

theorem head_add_count_mod (N : Nat) {T : Type} (q : LockFreeQueue T) (h : RBInv N q) :
    (q.head + LockFreeQueue.count q) % (N + 1) = q.tail := by
  obtain ⟨hc, hl, hh, ht⟩ := h
  rw [count_eq N q ⟨hc, hl, hh, ht⟩]
  by_cases h1 : q.tail < q.head
  · rw [if_pos h1, mod2 _ _ (by omega) (by omega)]
    split <;> omega
  · rw [if_neg h1, mod2 _ _ (by omega) (by omega)]
    split <;> omega

theorem slot_ne_tail (N : Nat) {T : Type} (q : LockFreeQueue T) (h : RBInv N q)
    (i : Nat) (hi : i < LockFreeQueue.count q) : (q.head + i) % (N + 1) ≠ q.tail := by
  obtain ⟨hc, hl, hh, ht⟩ := h
  rw [count_eq N q ⟨hc, hl, hh, ht⟩] at hi
  have hib : i < N + 1 := by split at hi <;> omega
  rw [mod2 _ _ (by omega) (by omega)]
  split at hi <;> split <;> omega

theorem push_spec {T : Type} [Inhabited T] (N : Nat) (q : LockFreeQueue T) (x : T)
    (h : RBInv N q) (hs : (LockFreeQueue.push q x).snd = true) :
    RBInv N (LockFreeQueue.push q x).fst ∧
    LockFreeQueue.toList (LockFreeQueue.push q x).fst = LockFreeQueue.toList q ++ [x] := by
  obtain ⟨hc, hl, hh, ht⟩ := h
  have hne : (q.tail + 1) % q.capacity ≠ q.head := by
    intro heq
    unfold LockFreeQueue.push at hs
    rw [if_pos heq] at hs
    simp at hs
  have hstate : (LockFreeQueue.push q x).fst =
      ⟨q.buffer.set q.tail x, q.head, (q.tail + 1) % q.capacity, q.capacity⟩ := by
    unfold LockFreeQueue.push
    rw [if_neg hne]
  have hinv' : RBInv N (LockFreeQueue.push q x).fst := by
    rw [hstate]
    unfold RBInv
    dsimp only
    refine ⟨hc, ?_, hh, ?_⟩
    · simp [hl]
    · rw [hc]
      exact Nat.mod_lt _ (by omega)
  have hne2 : (q.tail + 1) % (N + 1) ≠ q.head := by
    rw [← hc]
    exact hne
  rw [mod2 _ _ (by omega) (by omega)] at hne2
  have hcount' : LockFreeQueue.count (LockFreeQueue.push q x).fst =
      LockFreeQueue.count q + 1 := by
    rw [count_eq N _ hinv', count_eq N q ⟨hc, hl, hh, ht⟩, hstate]
    dsimp only
    rw [hc, mod2 _ _ (by omega) (by omega)]
    by_cases h1 : q.tail + 1 < N + 1
    · simp only [if_pos h1] at hne2 ⊢
      split <;> split <;> omega
    · simp only [if_neg h1] at hne2 ⊢
      split <;> split <;> omega
  refine ⟨hinv', ?_⟩
  unfold LockFreeQueue.toList
  rw [hcount', List.range_succ, List.map_append]
  congr 1
  · apply List.map_congr_left
    intro i hi
    rw [List.mem_range] at hi
    rw [hstate]
    dsimp only
    rw [hc]
    exact getD_set_ne q.buffer x default
      (Ne.symm (slot_ne_tail N q ⟨hc, hl, hh, ht⟩ i hi))
  · simp only [List.map_cons, List.map_nil]
    rw [hstate]
    dsimp only
    rw [hc, head_add_count_mod N q ⟨hc, hl, hh, ht⟩]
    rw [getD_set_self q.buffer x default (by omega)]

theorem pop_spec {T : Type} [Inhabited T] (N : Nat) (q : LockFreeQueue T) (x : T)
    (h : RBInv N q) (hs : (LockFreeQueue.pop q).snd = some x) :
    RBInv N (LockFreeQueue.pop q).fst ∧
    LockFreeQueue.toList q = x :: LockFreeQueue.toList (LockFreeQueue.pop q).fst := by
  obtain ⟨hc, hl, hh, ht⟩ := h
  have hne : q.head ≠ q.tail := by
    intro heq
    unfold LockFreeQueue.pop at hs
    rw [if_pos heq] at hs
    simp at hs
  have hstate : (LockFreeQueue.pop q).fst =
      ⟨q.buffer, (q.head + 1) % q.capacity, q.tail, q.capacity⟩ := by
    unfold LockFreeQueue.pop
    rw [if_neg hne]
  have hx : q.buffer.getD q.head default = x := by
    unfold LockFreeQueue.pop at hs
    rw [if_neg hne] at hs
    dsimp only at hs
    exact Option.some.inj hs
  have hinv' : RBInv N (LockFreeQueue.pop q).fst := by
    rw [hstate]
    unfold RBInv
    dsimp only
    refine ⟨hc, hl, ?_, ht⟩
    rw [hc]
    exact Nat.mod_lt _ (by omega)
  have hcount' : LockFreeQueue.count q =
      LockFreeQueue.count (LockFreeQueue.pop q).fst + 1 := by
    rw [count_eq N q ⟨hc, hl, hh, ht⟩, count_eq N _ hinv', hstate]
    dsimp only
    rw [hc, mod2 _ _ (by omega) (by omega)]
    by_cases h1 : q.head + 1 < N + 1
    · simp only [if_pos h1]
      split <;> split <;> omega
    · simp only [if_neg h1]
      split <;> split <;> omega
  refine ⟨hinv', ?_⟩
  unfold LockFreeQueue.toList
  rw [hcount', List.range_succ_eq_map, List.map_cons, List.map_map]
  congr 1
  · rw [hc]
    simp only [Nat.add_zero]
    rw [Nat.mod_eq_of_lt hh]
    exact hx
  · apply List.map_congr_left
    intro i _
    rw [hstate]
    dsimp only [Function.comp]
    rw [hc, Nat.mod_add_mod]
    simp only [Nat.succ_eq_add_one]
    have harg : q.head + (i + 1) = q.head + 1 + i := by omega
    rw [harg]

end NanoBook

namespace NanoBook

theorem runOps_nil_eq {T : Type} [Inhabited T] (q : LockFreeQueue T) :
    runOps ([] : List (RBOp T)) q = ⟨q, [], []⟩ := rfl

theorem runOps_push_eq {T : Type} [Inhabited T] (x : T) (rest : List (RBOp T))
    (q : LockFreeQueue T) :
    runOps (RBOp.push x :: rest) q =
      if (LockFreeQueue.push q x).snd then
        ⟨(runOps rest (LockFreeQueue.push q x).fst).state,
         x :: (runOps rest (LockFreeQueue.push q x).fst).pushed,
         (runOps rest (LockFreeQueue.push q x).fst).popped⟩
      else runOps rest (LockFreeQueue.push q x).fst := rfl

theorem runOps_pop_eq {T : Type} [Inhabited T] (rest : List (RBOp T))
    (q : LockFreeQueue T) :
    runOps (RBOp.pop :: rest) q =
      match (LockFreeQueue.pop q).snd with
      | some x => ⟨(runOps rest (LockFreeQueue.pop q).fst).state,
                   (runOps rest (LockFreeQueue.pop q).fst).pushed,
                   x :: (runOps rest (LockFreeQueue.pop q).fst).popped⟩
      | none => runOps rest (LockFreeQueue.pop q).fst := rfl

theorem runOps_fifo {T : Type} [Inhabited T] (N : Nat) (ops : List (RBOp T))
    (q : LockFreeQueue T) (h : RBInv N q) :
    RBInv N (runOps ops q).state ∧
    LockFreeQueue.toList q ++ (runOps ops q).pushed =
      (runOps ops q).popped ++ LockFreeQueue.toList (runOps ops q).state := by
  induction ops generalizing q with
  | nil =>
    rw [runOps_nil_eq]
    exact ⟨h, by simp⟩
  | cons op rest ih =>
    cases op with
    | push x =>
      rw [runOps_push_eq]
      by_cases hs : (LockFreeQueue.push q x).snd = true
      · rw [if_pos hs]
        obtain ⟨hinv', htl⟩ := push_spec N q x h hs
        obtain ⟨hinvr, hfifo⟩ := ih (LockFreeQueue.push q x).fst hinv'
        refine ⟨hinvr, ?_⟩
        dsimp only
        rw [htl] at hfifo
        rw [List.append_cons]
        exact hfifo
      · rw [if_neg hs]
        simp only [Bool.not_eq_true] at hs
        have hst := push_false_state q x hs
        have h2 : RBInv N (LockFreeQueue.push q x).fst := by
          rw [hst]
          exact h
        obtain ⟨hinvr, hfifo⟩ := ih (LockFreeQueue.push q x).fst h2
        refine ⟨hinvr, ?_⟩
        rw [hst] at hfifo ⊢
        exact hfifo
    | pop =>
      rw [runOps_pop_eq]
      cases hsnd : (LockFreeQueue.pop q).snd with
      | some x =>
        dsimp only
        obtain ⟨hinv', htl⟩ := pop_spec N q x h hsnd
        obtain ⟨hinvr, hfifo⟩ := ih (LockFreeQueue.pop q).fst hinv'
        refine ⟨hinvr, ?_⟩
        rw [htl, List.cons_append, List.cons_append, hfifo]
      | none =>
        dsimp only
        have hst := pop_none_state q hsnd
        have h2 : RBInv N (LockFreeQueue.pop q).fst := by
          rw [hst]
          exact h
        obtain ⟨hinvr, hfifo⟩ := ih (LockFreeQueue.pop q).fst h2
        refine ⟨hinvr, ?_⟩
        rw [hst] at hfifo ⊢
        exact hfifo

/-- C9: the ring buffer's construction/full/empty/FIFO contract.
`LockFreeQueue.create T N` (capacity `N`) reserves `N + 1` backing slots;
on any buffer satisfying the representation invariant, `push` returns
`false` exactly when `N` items are held unconsumed and `pop` fails exactly
when none are; and over any single-threaded sequence of calls started from
a fresh buffer, the successfully pushed items are exactly the successfully
popped items followed, in order, by the items still held — so every popped
item comes out in push order (FIFO). -/
theorem ring_buffer_contract {T : Type} [Inhabited T] (N : Nat) (ops : List (RBOp T)) :
    (LockFreeQueue.create T N).buffer.length = N + 1 ∧
    (∀ (q : LockFreeQueue T) (x : T), RBInv N q →
      ((LockFreeQueue.push q x).snd = false ↔ (LockFreeQueue.toList q).length = N)) ∧
    (∀ q : LockFreeQueue T, RBInv N q →
      ((LockFreeQueue.pop q).snd = none ↔ LockFreeQueue.toList q = [])) ∧
    (runOps ops (LockFreeQueue.create T N)).pushed =
      (runOps ops (LockFreeQueue.create T N)).popped ++
        LockFreeQueue.toList (runOps ops (LockFreeQueue.create T N)).state ∧
    ∃ rest : List T,
      (runOps ops (LockFreeQueue.create T N)).popped ++ rest =
        (runOps ops (LockFreeQueue.create T N)).pushed := by
  obtain ⟨hinv, hfifo⟩ := runOps_fifo N ops (LockFreeQueue.create T N) (create_inv T N)
  rw [create_toList, List.nil_append] at hfifo
  refine ⟨List.length_replicate _ _, ?_, ?_, hfifo, ⟨_, hfifo.symm⟩⟩
  · intro q x hq
    rw [toList_length]
    exact push_false_iff N q x hq
  · intro q hq
    rw [pop_none_iff N q hq, ← toList_length, List.length_eq_zero]

/-- Instantiation of the ring-buffer contract at capacity 1 and the call
sequence push 7; pop: two backing slots are reserved and the pushed items
equal the popped items followed by the leftover content. -/
theorem ring_buffer_contract_witness :
    (LockFreeQueue.create Nat 1).buffer.length = 1 + 1 ∧
    (runOps [RBOp.push 7, RBOp.pop] (LockFreeQueue.create Nat 1)).pushed =
      (runOps [RBOp.push 7, RBOp.pop] (LockFreeQueue.create Nat 1)).popped ++
        LockFreeQueue.toList (runOps [RBOp.push 7, RBOp.pop]
          (LockFreeQueue.create Nat 1)).state :=
  ⟨(ring_buffer_contract 1 [RBOp.push 7, RBOp.pop]).1,
   (ring_buffer_contract 1 [RBOp.push 7, RBOp.pop]).2.2.2.1⟩

end NanoBook
